import Mathlib

/-!
Verification of the FirstResponder incident-memory state machine.

The definitions below are a shallow embedding of the TypeScript sources:
  - `src/types/memory.ts`   (data model)
  - `src/memory/storage.ts` (keyed persistence layer)
  - `src/memory/operations.ts` (state-machine operations)
  - `src/tools/memory-tools.ts` and `src/agent/agent.ts` (tool dispatch)

Impure inputs of the original code (the wall clock `utcNow()` and the random
incident-id generator) are passed as explicit string parameters.  The
persistence layer is modelled as a function from incident id to an optional
record; `save` overwrites the record stored under the record's own id, as the
file-per-incident layout does.  Thrown `Error`s are modelled as `Except.error`
carrying the thrown message.
-/

namespace FirstResponder

/-- `IncidentStatus` from src/types/memory.ts. -/
inductive IncidentStatus where
  | investigating
  | resolved
  | escalated
deriving DecidableEq

/-- `Severity` from src/types/memory.ts. -/
inductive Severity where
  | critical
  | high
  | medium
  | low
deriving DecidableEq

/-- `HypothesisStatus` from src/types/memory.ts. -/
inductive HypothesisStatus where
  | investigating
  | confirmed_root_cause
  | ruled_out
deriving DecidableEq

/-- `Confidence` from src/types/memory.ts. -/
inductive Confidence where
  | high
  | medium
  | low
deriving DecidableEq

/-- `EventSource` from src/types/memory.ts. -/
inductive EventSource where
  | logs
  | user
  | agent
  | metrics
deriving DecidableEq

/-- `FindingType` from src/types/memory.ts. -/
inductive FindingType where
  | error
  | metric
  | config_change
deriving DecidableEq

/-- The union type `"agent" | "user"` used for `Hypothesis.proposed_by`. -/
inductive Proposer where
  | agent
  | user
deriving DecidableEq

/-- `Metadata` from src/types/memory.ts. -/
structure Metadata where
  started_at : String
  status : IncidentStatus
  severity : Severity
  affected_services : List String
  investigator : String
deriving DecidableEq

/-- `TLDR` from src/types/memory.ts. -/
structure TLDR where
  summary : String
  last_updated : String
deriving DecidableEq

/-- `TimelineEvent` from src/types/memory.ts. -/
structure TimelineEvent where
  timestamp : String
  event : String
  source : EventSource
  details : String
deriving DecidableEq

/-- `Hypothesis` from src/types/memory.ts.  The optional TypeScript field
`ruled_out_at?` becomes an `Option`; an absent field is `none`. -/
structure Hypothesis where
  id : String
  title : String
  proposed_at : String
  proposed_by : Proposer
  status : HypothesisStatus
  confidence : Confidence
  supporting_evidence : List String
  counter_evidence : List String
  ruled_out_at : Option String := none
deriving DecidableEq

/-- `Finding` from src/types/memory.ts. -/
structure Finding where
  type : FindingType
  description : String
  service : String
  timestamp : String
  value : Option String := none
deriving DecidableEq

/-- `RuledOutEntry` from src/types/memory.ts. -/
structure RuledOutEntry where
  hypothesis : String
  reason : String
  ruled_out_at : String
deriving DecidableEq

/-- `IncidentMemory` from src/types/memory.ts. -/
structure IncidentMemory where
  incident_id : String
  incident_name : String
  metadata : Metadata
  tldr : TLDR
  timeline : List TimelineEvent
  hypotheses : List Hypothesis
  findings : List Finding
  ruled_out : List RuledOutEntry
deriving DecidableEq

/-- The persistence layer of src/memory/storage.ts: one JSON document per
incident id.  A store maps each incident id to the stored record, if any. -/
def Store : Type := String → Option IncidentMemory

/-- `loadMemory` from src/memory/storage.ts: a missing file (`ENOENT`) is the
absent result `none`, not an error. -/
def loadMemory (s : Store) (incidentId : String) : Option IncidentMemory :=
  s incidentId

/-- `saveMemory` from src/memory/storage.ts: whole-document overwrite of the
file keyed by the record's own `incident_id`. -/
def saveMemory (s : Store) (memory : IncidentMemory) : Store :=
  fun k => if k = memory.incident_id then some memory else s k

/-- The store with no incident files. -/
def emptyStore : Store := fun _ => none

/-- `generateHypothesisId` from src/memory/operations.ts:
`hyp_` followed by the decimal print of `hypotheses.length + 1`. -/
def generateHypothesisId (memory : IncidentMemory) : String :=
  "hyp_" ++ Nat.repr (memory.hypotheses.length + 1)

/-- Lexicographic comparison of character lists by code point, the order
`localeCompare` induces on ISO-8601 UTC timestamp strings. -/
def charsLe : List Char → List Char → Bool
  | [], _ => true
  | _ :: _, [] => false
  | a :: as, b :: bs =>
    if a.toNat < b.toNat then true
    else if b.toNat < a.toNat then false
    else charsLe as bs

/-- Timestamp order: lexicographic comparison of the two strings. -/
def tsLe (a b : String) : Prop :=
  charsLe a.data b.data = true

instance (a b : String) : Decidable (tsLe a b) :=
  inferInstanceAs (Decidable (charsLe a.data b.data = true))

/-- The comparator `(a, b) => a.timestamp.localeCompare(b.timestamp)` used to
sort the timeline. -/
def timelineOrder (a b : TimelineEvent) : Prop :=
  tsLe a.timestamp b.timestamp

instance : DecidableRel timelineOrder :=
  fun a b => inferInstanceAs (Decidable (tsLe a.timestamp b.timestamp))

/-- The stable sort `memory.timeline.sort(comparator)` of the source.  A
stable sort by a total preorder is a unique function of its comparator, so
the ECMA-262 stable `Array.prototype.sort` is modelled by insertion sort. -/
def sortTimeline (l : List TimelineEvent) : List TimelineEvent :=
  l.insertionSort timelineOrder

/-- `CreateIncidentParams` from src/memory/operations.ts. -/
structure CreateIncidentParams where
  name : String
  severity : Severity
  affected_services : List String
  investigator : String
  initial_description : String
deriving DecidableEq

/-- The record object built by `createIncident` in src/memory/operations.ts. -/
def createRecord (newId now : String) (params : CreateIncidentParams) : IncidentMemory :=
  { incident_id := newId
    incident_name := params.name
    metadata :=
      { started_at := now
        status := IncidentStatus.investigating
        severity := params.severity
        affected_services := params.affected_services
        investigator := params.investigator }
    tldr := { summary := params.initial_description, last_updated := now }
    timeline :=
      [{ timestamp := now
         event := "Investigation started"
         source := EventSource.user
         details := params.initial_description }]
    hypotheses := []
    findings := []
    ruled_out := [] }

/-- `createIncident` from src/memory/operations.ts.  The generated incident id
(`generateIncidentId`, built from the clock and a random suffix) and the clock
reading `utcNow()` enter as the explicit parameters `newId` and `now`.  No
existence check is made before saving, exactly as in the source. -/
def createIncident (newId now : String) (params : CreateIncidentParams) (s : Store) :
    IncidentMemory × Store :=
  (createRecord newId now params, saveMemory s (createRecord newId now params))

/-- `AddTimelineEventParams` from src/memory/operations.ts; the optional
`timestamp` field is an `Option`. -/
structure AddTimelineEventParams where
  incident_id : String
  event : String
  source : EventSource
  details : String
  timestamp : Option String := none
deriving DecidableEq

/-- The record after the mutation of `addTimelineEvent`: the new event (with
the `??`-defaulted timestamp) is pushed, then the whole timeline re-sorted. -/
def addEventRecord (now : String) (p : AddTimelineEventParams) (memory : IncidentMemory) :
    IncidentMemory :=
  { memory with
      timeline :=
        sortTimeline (memory.timeline ++
          [{ timestamp := p.timestamp.getD now
             event := p.event
             source := p.source
             details := p.details }]) }

/-- `addTimelineEvent` from src/memory/operations.ts: load, append the event
(timestamp defaulting to `now` via `??`), stable-sort the whole timeline by
timestamp, save. -/
def addTimelineEvent (now : String) (p : AddTimelineEventParams) (s : Store) :
    Except String (IncidentMemory × Store) :=
  match loadMemory s p.incident_id with
  | none => Except.error ("Incident " ++ p.incident_id ++ " not found")
  | some memory =>
    Except.ok (addEventRecord now p memory, saveMemory s (addEventRecord now p memory))

/-- `ProposeHypothesisParams` from src/memory/operations.ts. -/
structure ProposeHypothesisParams where
  incident_id : String
  title : String
  proposed_by : Proposer
  initial_evidence : List String
  confidence : Confidence
deriving DecidableEq

/-- The hypothesis object built by `proposeHypothesis`. -/
def newHypothesis (now : String) (p : ProposeHypothesisParams) (memory : IncidentMemory) :
    Hypothesis :=
  { id := generateHypothesisId memory
    title := p.title
    proposed_at := now
    proposed_by := p.proposed_by
    status := HypothesisStatus.investigating
    confidence := p.confidence
    supporting_evidence := p.initial_evidence
    counter_evidence := []
    ruled_out_at := none }

/-- The record after the mutation of `proposeHypothesis`. -/
def proposeRecord (now : String) (p : ProposeHypothesisParams) (memory : IncidentMemory) :
    IncidentMemory :=
  { memory with hypotheses := memory.hypotheses ++ [newHypothesis now p memory] }

/-- `proposeHypothesis` from src/memory/operations.ts: appends one hypothesis
with status `investigating`, id `generateHypothesisId`, empty counter
evidence, and no `ruled_out_at` field. -/
def proposeHypothesis (now : String) (p : ProposeHypothesisParams) (s : Store) :
    Except String (IncidentMemory × Store) :=
  match loadMemory s p.incident_id with
  | none => Except.error ("Incident " ++ p.incident_id ++ " not found")
  | some memory =>
    Except.ok (proposeRecord now p memory, saveMemory s (proposeRecord now p memory))

/-- Replace the first element satisfying `p` by its image under `f`,
modelling the TypeScript pattern of mutating the object returned by
`Array.prototype.find`. -/
def updateFirst (p : α → Bool) (f : α → α) : List α → List α
  | [] => []
  | x :: xs => if p x then f x :: xs else x :: updateFirst p f xs

/-- `UpdateHypothesisParams` from src/memory/operations.ts. -/
structure UpdateHypothesisParams where
  incident_id : String
  hypothesis_id : String
  add_supporting_evidence : Option (List String) := none
  add_counter_evidence : Option (List String) := none
  new_confidence : Option Confidence := none
deriving DecidableEq

/-- The three guarded mutations of `updateHypothesis` applied to the found
hypothesis (each `if (params.x)` skips an absent field). -/
def applyHypothesisUpdate (p : UpdateHypothesisParams) (h : Hypothesis) : Hypothesis :=
  let h1 := match p.add_supporting_evidence with
    | none => h
    | some es => { h with supporting_evidence := h.supporting_evidence ++ es }
  let h2 := match p.add_counter_evidence with
    | none => h1
    | some es => { h1 with counter_evidence := h1.counter_evidence ++ es }
  match p.new_confidence with
  | none => h2
  | some c => { h2 with confidence := c }

/-- The record after the mutation of `updateHypothesis`. -/
def updateHypRecord (p : UpdateHypothesisParams) (memory : IncidentMemory) : IncidentMemory :=
  { memory with
      hypotheses :=
        updateFirst (fun h => h.id == p.hypothesis_id) (applyHypothesisUpdate p)
          memory.hypotheses }

/-- `updateHypothesis` from src/memory/operations.ts: load, find the first
hypothesis with the given id (error if none), apply the optional mutations in
place, save. -/
def updateHypothesis (p : UpdateHypothesisParams) (s : Store) :
    Except String (IncidentMemory × Store) :=
  match loadMemory s p.incident_id with
  | none => Except.error ("Incident " ++ p.incident_id ++ " not found")
  | some memory =>
    match memory.hypotheses.find? (fun h => h.id == p.hypothesis_id) with
    | none => Except.error ("Hypothesis " ++ p.hypothesis_id ++ " not found")
    | some _ =>
      Except.ok (updateHypRecord p memory, saveMemory s (updateHypRecord p memory))

/-- `RuleOutHypothesisParams` from src/memory/operations.ts. -/
structure RuleOutHypothesisParams where
  incident_id : String
  hypothesis_id : String
  reason : String
deriving DecidableEq

/-- The record after the mutation of `ruleOutHypothesis`, where `hypothesis`
is the hypothesis `find` located: its status and `ruled_out_at` stamp change
in place, and one audit entry is appended with the same `now`. -/
def ruleOutRecord (now : String) (p : RuleOutHypothesisParams) (memory : IncidentMemory)
    (hypothesis : Hypothesis) : IncidentMemory :=
  { memory with
      hypotheses :=
        updateFirst (fun h => h.id == p.hypothesis_id)
          (fun h => { h with
            status := HypothesisStatus.ruled_out
            ruled_out_at := some now })
          memory.hypotheses
      ruled_out :=
        memory.ruled_out ++
          [{ hypothesis := hypothesis.title
             reason := p.reason
             ruled_out_at := now }] }

/-- `ruleOutHypothesis` from src/memory/operations.ts: stamps the found
hypothesis `ruled_out` at `now` and appends an audit entry carrying its title,
the reason, and the same `now`.  No guard inspects the previous status, no
timeline event is appended, and the TLDR is untouched. -/
def ruleOutHypothesis (now : String) (p : RuleOutHypothesisParams) (s : Store) :
    Except String (IncidentMemory × Store) :=
  match loadMemory s p.incident_id with
  | none => Except.error ("Incident " ++ p.incident_id ++ " not found")
  | some memory =>
    match memory.hypotheses.find? (fun h => h.id == p.hypothesis_id) with
    | none => Except.error ("Hypothesis " ++ p.hypothesis_id ++ " not found")
    | some hypothesis =>
      Except.ok (ruleOutRecord now p memory hypothesis,
        saveMemory s (ruleOutRecord now p memory hypothesis))

/-- `ConfirmRootCauseParams` from src/memory/operations.ts. -/
structure ConfirmRootCauseParams where
  incident_id : String
  hypothesis_id : String
deriving DecidableEq

/-- The record after the mutation of `confirmRootCause`, where `hypothesis`
is the hypothesis `find` located. -/
def confirmRecord (nowTldr nowTimeline : String) (p : ConfirmRootCauseParams)
    (memory : IncidentMemory) (hypothesis : Hypothesis) : IncidentMemory :=
  { memory with
      hypotheses :=
        updateFirst (fun h => h.id == p.hypothesis_id)
          (fun h => { h with status := HypothesisStatus.confirmed_root_cause })
          memory.hypotheses
      metadata := { memory.metadata with status := IncidentStatus.resolved }
      tldr :=
        { summary := "Root cause confirmed: " ++ hypothesis.title
          last_updated := nowTldr }
      timeline :=
        memory.timeline ++
          [{ timestamp := nowTimeline
             event := "Root cause confirmed"
             source := EventSource.user
             details := hypothesis.title }] }

/-- `confirmRootCause` from src/memory/operations.ts: sets the found
hypothesis to `confirmed_root_cause` (leaving any `ruled_out_at` stamp in
place), sets the record status to `resolved`, rewrites the TLDR, and appends a
timeline event without re-sorting.  The two separate `utcNow()` calls in the
source become the parameters `nowTldr` and `nowTimeline`. -/
def confirmRootCause (nowTldr nowTimeline : String) (p : ConfirmRootCauseParams) (s : Store) :
    Except String (IncidentMemory × Store) :=
  match loadMemory s p.incident_id with
  | none => Except.error ("Incident " ++ p.incident_id ++ " not found")
  | some memory =>
    match memory.hypotheses.find? (fun h => h.id == p.hypothesis_id) with
    | none => Except.error ("Hypothesis " ++ p.hypothesis_id ++ " not found")
    | some hypothesis =>
      Except.ok (confirmRecord nowTldr nowTimeline p memory hypothesis,
        saveMemory s (confirmRecord nowTldr nowTimeline p memory hypothesis))

/-- `AddFindingParams` from src/memory/operations.ts. -/
structure AddFindingParams where
  incident_id : String
  type : FindingType
  description : String
  service : String
  timestamp : String
  value : Option String := none
deriving DecidableEq

/-- The record after the mutation of `addFinding`. -/
def addFindRecord (p : AddFindingParams) (memory : IncidentMemory) : IncidentMemory :=
  { memory with
      findings :=
        memory.findings ++
          [{ type := p.type
             description := p.description
             service := p.service
             timestamp := p.timestamp
             value := p.value }] }

/-- `addFinding` from src/memory/operations.ts. -/
def addFinding (p : AddFindingParams) (s : Store) :
    Except String (IncidentMemory × Store) :=
  match loadMemory s p.incident_id with
  | none => Except.error ("Incident " ++ p.incident_id ++ " not found")
  | some memory =>
    Except.ok (addFindRecord p memory, saveMemory s (addFindRecord p memory))

/-- `UpdateTLDRParams` from src/memory/operations.ts. -/
structure UpdateTLDRParams where
  incident_id : String
  summary : String
deriving DecidableEq

/-- The record after the mutation of `updateTLDR`. -/
def setTldrRecord (now : String) (p : UpdateTLDRParams) (memory : IncidentMemory) :
    IncidentMemory :=
  { memory with tldr := { summary := p.summary, last_updated := now } }

/-- `updateTLDR` from src/memory/operations.ts. -/
def updateTLDR (now : String) (p : UpdateTLDRParams) (s : Store) :
    Except String (IncidentMemory × Store) :=
  match loadMemory s p.incident_id with
  | none => Except.error ("Incident " ++ p.incident_id ++ " not found")
  | some memory =>
    Except.ok (setTldrRecord now p memory, saveMemory s (setTldrRecord now p memory))

/-- `getIncident` from src/memory/operations.ts: it returns the raw
`loadMemory` result, so a missing record yields the absent value `none`
rather than an error. -/
def getIncident (s : Store) (incidentId : String) : Option IncidentMemory :=
  loadMemory s incidentId

/-- `getHypotheses` from src/memory/operations.ts: throws when the record is
absent. -/
def getHypotheses (s : Store) (incidentId : String) : Except String (List Hypothesis) :=
  match loadMemory s incidentId with
  | none => Except.error ("Incident " ++ incidentId ++ " not found")
  | some memory => Except.ok memory.hypotheses

/-- `getTimeline` from src/memory/operations.ts: throws when the record is
absent. -/
def getTimeline (s : Store) (incidentId : String) : Except String (List TimelineEvent) :=
  match loadMemory s incidentId with
  | none => Except.error ("Incident " ++ incidentId ++ " not found")
  | some memory => Except.ok memory.timeline

/-- One state-machine write operation together with the impure inputs (clock
readings, generated incident id) consumed by its run. -/
inductive Op where
  | create (newId now : String) (p : CreateIncidentParams)
  | addEvent (now : String) (p : AddTimelineEventParams)
  | propose (now : String) (p : ProposeHypothesisParams)
  | updateHyp (p : UpdateHypothesisParams)
  | ruleOut (now : String) (p : RuleOutHypothesisParams)
  | confirm (nowTldr nowTimeline : String) (p : ConfirmRootCauseParams)
  | addFind (p : AddFindingParams)
  | setTldr (now : String) (p : UpdateTLDRParams)

/-- The store left behind by a fallible operation: a throw happens before any
save, so the store is unchanged on error. -/
def stepResult (r : Except String (IncidentMemory × Store)) (s : Store) : Store :=
  match r with
  | Except.ok x => x.2
  | Except.error _ => s

/-- Effect of one operation on the store. -/
def applyOp : Op → Store → Store
  | Op.create newId now p, s => (createIncident newId now p s).2
  | Op.addEvent now p, s => stepResult (addTimelineEvent now p s) s
  | Op.propose now p, s => stepResult (proposeHypothesis now p s) s
  | Op.updateHyp p, s => stepResult (updateHypothesis p s) s
  | Op.ruleOut now p, s => stepResult (ruleOutHypothesis now p s) s
  | Op.confirm n1 n2 p, s => stepResult (confirmRootCause n1 n2 p s) s
  | Op.addFind p, s => stepResult (addFinding p s) s
  | Op.setTldr now p, s => stepResult (updateTLDR now p s) s

/-- Stores reachable from the empty store by operations each satisfying the
side condition `G` in the store where it runs. -/
inductive ReachableUnder (G : Store → Op → Prop) : Store → Prop where
  | base : ReachableUnder G emptyStore
  | step (s : Store) (op : Op) :
      ReachableUnder G s → G s op → ReachableUnder G (applyOp op s)

/-- Stores reachable by arbitrary operation sequences. -/
def Reachable (s : Store) : Prop :=
  ReachableUnder (fun _ _ => True) s

/-- Every stored record is filed under its own incident id. -/
def StoreConsistent (s : Store) : Prop :=
  ∀ k m, s k = some m → m.incident_id = k

/-- Side condition: `ruleOutHypothesis` is not applied to a hypothesis that
already holds `confirmed_root_cause` (the spec's "correct operator use"). -/
def NoRuleOutConfirmed (s : Store) : Op → Prop
  | Op.ruleOut _ p =>
      ∀ m h, loadMemory s p.incident_id = some m →
        m.hypotheses.find? (fun x => x.id == p.hypothesis_id) = some h →
        h.status ≠ HypothesisStatus.confirmed_root_cause
  | _ => True

/-- Side condition: `confirmRootCause` is not applied to a hypothesis that is
already `ruled_out`. -/
def NoConfirmRuledOut (s : Store) : Op → Prop
  | Op.confirm _ _ p =>
      ∀ m h, loadMemory s p.incident_id = some m →
        m.hypotheses.find? (fun x => x.id == p.hypothesis_id) = some h →
        h.status ≠ HypothesisStatus.ruled_out
  | _ => True

/-- Side condition: the generated id of a `createIncident` call does not
collide with an already stored incident (the spec's globally-unique id
assumption for `generateIncidentId`). -/
def FreshCreateIds (s : Store) : Op → Prop
  | Op.create newId _ _ => s newId = none
  | _ => True

/-- Clock discipline for one operation run no earlier than `t`: clock
readings are at least `t`, the two readings inside `confirmRootCause` occur
in order, and a caller-supplied timeline timestamp is historical (no later
than the clock at the call). -/
def opTimeOk (t : String) : Op → Prop
  | Op.create _ now _ => tsLe t now
  | Op.addEvent now p => tsLe t now ∧ ∀ ts, p.timestamp = some ts → tsLe ts now
  | Op.propose now _ => tsLe t now
  | Op.updateHyp _ => True
  | Op.ruleOut now _ => tsLe t now
  | Op.confirm n1 n2 _ => tsLe t n1 ∧ tsLe n1 n2
  | Op.addFind _ => True
  | Op.setTldr now _ => tsLe t now

/-- The clock bound after running an operation started at bound `t`. -/
def opNext (t : String) : Op → String
  | Op.create _ now _ => now
  | Op.addEvent now _ => now
  | Op.propose now _ => now
  | Op.updateHyp _ => t
  | Op.ruleOut now _ => now
  | Op.confirm _ n2 _ => n2
  | Op.addFind _ => t
  | Op.setTldr now _ => now

/-- Stores reachable by operation sequences whose clock readings are
monotone and whose caller-supplied timestamps are historical; the string
bound tracks the latest clock reading. -/
inductive ClockedReach : String → Store → Prop where
  | base (t : String) : ClockedReach t emptyStore
  | step (t : String) (s : Store) (op : Op) :
      ClockedReach t s → opTimeOk t op → ClockedReach (opNext t op) (applyOp op s)

/-- The id `proposeHypothesis` derives for the hypothesis stored at 0-based
position `i`. -/
def positionId (i : Nat) : String :=
  "hyp_" ++ Nat.repr (i + 1)

/-- The hypothesis ids of a record holding `n` hypotheses, in order. -/
def canonicalIds (n : Nat) : List String :=
  (List.range n).map positionId

/-- Numeric value of a decimal digit character. -/
def digitVal (c : Char) : Nat :=
  c.toNat - 48

/-- Decimal value decoded from a digit string, left to right. -/
def decodeChars (l : List Char) : Nat :=
  l.foldl (fun acc c => 10 * acc + digitVal c) 0

/-- The loosely-typed input bag handed to a tool executor. -/
def ToolInput : Type := List (String × String)
deriving DecidableEq

/-- The names of the memory tools registered in
src/tools/memory-tools.ts (`memoryTools[].name`), in declaration order. -/
def memoryToolNames : List String :=
  ["create_incident", "get_incident", "list_incidents", "add_timeline_event",
   "propose_hypothesis", "update_hypothesis", "rule_out_hypothesis",
   "confirm_root_cause", "add_finding", "update_tldr", "get_hypotheses",
   "get_timeline"]

/-- Where `executeTool` in src/agent/agent.ts sends a tool call. -/
inductive ToolRoute where
  | memory (name : String) (input : ToolInput)
  | mcp (name : String) (input : ToolInput)
deriving DecidableEq

/-- The routing body of `executeTool` in src/agent/agent.ts: a name in
`memoryToolNames` goes to `executeMemoryTool`; every other name is forwarded
verbatim to `executeMcpTool`, the external log-query collaborator.  There is
no third branch. -/
def executeToolRoute (name : String) (input : ToolInput) : ToolRoute :=
  if memoryToolNames.contains name then ToolRoute.memory name input
  else ToolRoute.mcp name input

/-- The memory operation selected by a `case` of the `switch` in
`executeMemoryTool` (src/tools/memory-tools.ts). -/
inductive MemoryOpTag where
  | createIncidentOp
  | getIncidentOp
  | listIncidentsOp
  | addTimelineEventOp
  | proposeHypothesisOp
  | updateHypothesisOp
  | ruleOutHypothesisOp
  | confirmRootCauseOp
  | addFindingOp
  | updateTldrOp
  | getHypothesesOp
  | getTimelineOp
deriving DecidableEq

/-- The `switch (toolName)` of `executeMemoryTool` in
src/tools/memory-tools.ts, reduced to which operation each case selects; the
`default` branch throws `Unknown memory tool`. -/
def memoryToolSwitch (toolName : String) : Except String MemoryOpTag :=
  if toolName = "create_incident" then Except.ok MemoryOpTag.createIncidentOp
  else if toolName = "get_incident" then Except.ok MemoryOpTag.getIncidentOp
  else if toolName = "list_incidents" then Except.ok MemoryOpTag.listIncidentsOp
  else if toolName = "add_timeline_event" then Except.ok MemoryOpTag.addTimelineEventOp
  else if toolName = "propose_hypothesis" then Except.ok MemoryOpTag.proposeHypothesisOp
  else if toolName = "update_hypothesis" then Except.ok MemoryOpTag.updateHypothesisOp
  else if toolName = "rule_out_hypothesis" then Except.ok MemoryOpTag.ruleOutHypothesisOp
  else if toolName = "confirm_root_cause" then Except.ok MemoryOpTag.confirmRootCauseOp
  else if toolName = "add_finding" then Except.ok MemoryOpTag.addFindingOp
  else if toolName = "update_tldr" then Except.ok MemoryOpTag.updateTldrOp
  else if toolName = "get_hypotheses" then Except.ok MemoryOpTag.getHypothesesOp
  else if toolName = "get_timeline" then Except.ok MemoryOpTag.getTimelineOp
  else Except.error ("Unknown memory tool: " ++ toolName)

/-- Timestamp fixture: earliest clock reading used in the concrete traces. -/
def tA : String := "2025-01-01T00:00:00.000Z"

/-- Timestamp fixture. -/
def tB : String := "2025-01-02T00:00:00.000Z"

/-- Timestamp fixture. -/
def tC : String := "2025-01-03T00:00:00.000Z"

/-- Timestamp fixture. -/
def tD : String := "2025-01-04T00:00:00.000Z"

/-- Timestamp fixture: a historical timestamp earlier than `tA`. -/
def tHist : String := "2024-12-31T23:00:00.000Z"

/-- The creation parameters of the spec's walkthrough scenario. -/
def createP : CreateIncidentParams :=
  { name := "Checkout 500 Errors"
    severity := Severity.critical
    affected_services := ["checkout-api"]
    investigator := "alice"
    initial_description := "Users report 500s at checkout" }

/-- The hypothesis proposal of the spec's walkthrough scenario. -/
def proposeP : ProposeHypothesisParams :=
  { incident_id := "inc_1"
    title := "DB pool exhaustion"
    proposed_by := Proposer.agent
    initial_evidence := ["connection timeouts"]
    confidence := Confidence.medium }

/-- Confirmation of `hyp_1` on the fixture incident. -/
def confirmP : ConfirmRootCauseParams :=
  { incident_id := "inc_1", hypothesis_id := "hyp_1" }

/-- Rule-out of `hyp_1` on the fixture incident. -/
def ruleOutP : RuleOutHypothesisParams :=
  { incident_id := "inc_1"
    hypothesis_id := "hyp_1"
    reason := "timeouts unrelated to pool size" }

/-- A timeline event carrying a caller-supplied historical timestamp. -/
def histEventP : AddTimelineEventParams :=
  { incident_id := "inc_1"
    event := "Deploy rolled out"
    source := EventSource.logs
    details := "canary promoted"
    timestamp := some tHist }

/-- Store after creating the fixture incident `inc_1` at time `tA`. -/
def store1 : Store :=
  applyOp (Op.create "inc_1" tA createP) emptyStore

/-- Store after also proposing `hyp_1` at time `tB`. -/
def store2 : Store :=
  applyOp (Op.propose tB proposeP) store1

/-- Store after additionally confirming `hyp_1` as root cause at time `tC`. -/
def store3c : Store :=
  applyOp (Op.confirm tC tC confirmP) store2

/-- Store after then ruling out the already confirmed `hyp_1` at time `tD`. -/
def store4c : Store :=
  applyOp (Op.ruleOut tD ruleOutP) store3c

/-- Store after ruling out `hyp_1` at time `tC` (no prior confirmation). -/
def store3r : Store :=
  applyOp (Op.ruleOut tC ruleOutP) store2

/-- Store after then confirming the already ruled-out `hyp_1` at time `tD`. -/
def store4r : Store :=
  applyOp (Op.confirm tD tD confirmP) store3r

/-- Store after create, an out-of-order historical timeline event, a
hypothesis proposal, and a root-cause confirmation, run under monotone clock
readings `tA ≤ tB ≤ tC ≤ tD`. -/
def storeW : Store :=
  applyOp (Op.confirm tD tD confirmP)
    (applyOp (Op.propose tC proposeP)
      (applyOp (Op.addEvent tB histEventP) store1))

/-- A fixed record used as the default of `recOf`. -/
def dummyRecord : IncidentMemory :=
  { incident_id := ""
    incident_name := ""
    metadata :=
      { started_at := ""
        status := IncidentStatus.investigating
        severity := Severity.low
        affected_services := []
        investigator := "" }
    tldr := { summary := "", last_updated := "" }
    timeline := []
    hypotheses := []
    findings := []
    ruled_out := [] }

/-- The record stored under `k`, defaulting to `dummyRecord` when absent. -/
def recOf (s : Store) (k : String) : IncidentMemory :=
  (s k).getD dummyRecord

/-- A fixed hypothesis used as the default of `hypOf`. -/
def dummyHyp : Hypothesis :=
  { id := ""
    title := ""
    proposed_at := ""
    proposed_by := Proposer.user
    status := HypothesisStatus.investigating
    confidence := Confidence.low
    supporting_evidence := []
    counter_evidence := []
    ruled_out_at := none }

/-- The first hypothesis with the given id in the record stored under `k`,
defaulting to `dummyHyp`. -/
def hypOf (s : Store) (k hid : String) : Hypothesis :=
  ((recOf s k).hypotheses.find? (fun x => x.id == hid)).getD dummyHyp

/-- An `updateHypothesis` call on the fixture incident with none of the
optional fields supplied. -/
def noopP : UpdateHypothesisParams :=
  { incident_id := "inc_1", hypothesis_id := "hyp_1" }

/-- An empty tool-input bag. -/
def emptyInput : ToolInput := []

/-! Basic properties of the timestamp order. -/

theorem charsLe_refl (l : List Char) : charsLe l l = true := by
  induction l with
  | nil => rfl
  | cons a as ih => simp [charsLe, Nat.lt_irrefl, ih]

theorem charsLe_total (l1 l2 : List Char) : charsLe l1 l2 = true ∨ charsLe l2 l1 = true := by
  induction l1 generalizing l2 with
  | nil => left; rfl
  | cons a as ih =>
    cases l2 with
    | nil => right; rfl
    | cons b bs =>
      rcases Nat.lt_trichotomy a.toNat b.toNat with h | h | h
      · left; simp [charsLe, h]
      · rcases ih bs with h2 | h2
        · left; simp [charsLe, h, Nat.lt_irrefl, h2]
        · right; simp [charsLe, h.symm, Nat.lt_irrefl, h2]
      · right; simp [charsLe, h]

theorem charsLe_trans : ∀ l1 l2 l3 : List Char,
    charsLe l1 l2 = true → charsLe l2 l3 = true → charsLe l1 l3 = true := by
  intro l1
  induction l1 with
  | nil => intro l2 l3 _ _; rfl
  | cons a as ih =>
    intro l2 l3 h12 h23
    cases l2 with
    | nil => simp [charsLe] at h12
    | cons b bs =>
      cases l3 with
      | nil => simp [charsLe] at h23
      | cons c cs =>
        rcases Nat.lt_trichotomy a.toNat b.toNat with hab | hab | hab
        · rcases Nat.lt_trichotomy b.toNat c.toNat with hbc | hbc | hbc
          · simp [charsLe, Nat.lt_trans hab hbc]
          · simp [charsLe, hbc ▸ hab]
          · simp [charsLe, Nat.lt_asymm hbc, hbc] at h23
        · rcases Nat.lt_trichotomy b.toNat c.toNat with hbc | hbc | hbc
          · simp [charsLe, hab ▸ hbc]
          · simp only [charsLe] at h12 h23 ⊢
            rw [hab] at h12 ⊢
            rw [hbc] at h23 ⊢
            simp only [Nat.lt_irrefl, if_false] at h12 h23 ⊢
            exact ih bs cs h12 h23
          · simp [charsLe, Nat.lt_asymm hbc, hbc] at h23
        · simp [charsLe, Nat.lt_asymm hab, hab] at h12

theorem tsLe_refl (a : String) : tsLe a a :=
  charsLe_refl a.data

theorem tsLe_total (a b : String) : tsLe a b ∨ tsLe b a :=
  charsLe_total a.data b.data

theorem tsLe_trans {a b c : String} (h1 : tsLe a b) (h2 : tsLe b c) : tsLe a c :=
  charsLe_trans a.data b.data c.data h1 h2

theorem sortTimeline_sorted (l : List TimelineEvent) :
    List.Sorted timelineOrder (sortTimeline l) :=
  @List.sorted_insertionSort TimelineEvent timelineOrder _
    ⟨fun a b => tsLe_total a.timestamp b.timestamp⟩
    ⟨fun _ _ _ h1 h2 => tsLe_trans h1 h2⟩ l

theorem mem_sortTimeline {x : TimelineEvent} {l : List TimelineEvent} :
    x ∈ sortTimeline l ↔ x ∈ l :=
  (List.perm_insertionSort timelineOrder l).mem_iff

/-! Properties of `updateFirst` and `applyHypothesisUpdate`. -/

theorem updateFirst_decomp {α : Type} {p : α → Bool} {f : α → α} {l : List α} {a : α}
    (h : l.find? p = some a) :
    ∃ l₁ l₂, l = l₁ ++ a :: l₂ ∧ (∀ x ∈ l₁, p x = false) ∧ p a = true ∧
      updateFirst p f l = l₁ ++ f a :: l₂ := by
  induction l with
  | nil => simp at h
  | cons x xs ih =>
    by_cases hx : p x
    · rw [List.find?_cons_of_pos _ hx] at h
      obtain rfl : x = a := by injection h
      exact ⟨[], xs, rfl, by simp, hx, by simp [updateFirst, hx]⟩
    · rw [List.find?_cons_of_neg _ hx] at h
      obtain ⟨l₁, l₂, hl, hl₁, ha, hu⟩ := ih h
      refine ⟨x :: l₁, l₂, by simp [hl], ?_, ha, ?_⟩
      · intro y hy
        rcases List.mem_cons.mp hy with rfl | hy
        · simpa using hx
        · exact hl₁ y hy
      · simp [updateFirst, hx, hu]

theorem updateFirst_map_eq {α β : Type} {p : α → Bool} {f : α → α} (g : α → β)
    (hg : ∀ x, g (f x) = g x) (l : List α) :
    (updateFirst p f l).map g = l.map g := by
  induction l with
  | nil => rfl
  | cons x xs ih =>
    by_cases hx : p x
    · simp [updateFirst, hx, hg]
    · simp [updateFirst, hx, ih]

theorem updateFirst_eq_self {α : Type} {p : α → Bool} {f : α → α}
    (hf : ∀ x, p x = true → f x = x) (l : List α) :
    updateFirst p f l = l := by
  induction l with
  | nil => rfl
  | cons x xs ih =>
    by_cases hx : p x
    · simp [updateFirst, hx, hf x hx]
    · simp [updateFirst, hx, ih]

theorem applyHypothesisUpdate_id (p : UpdateHypothesisParams) (h : Hypothesis) :
    (applyHypothesisUpdate p h).id = h.id := by
  unfold applyHypothesisUpdate
  cases p.add_supporting_evidence <;> cases p.add_counter_evidence <;>
    cases p.new_confidence <;> rfl

theorem applyHypothesisUpdate_status (p : UpdateHypothesisParams) (h : Hypothesis) :
    (applyHypothesisUpdate p h).status = h.status := by
  unfold applyHypothesisUpdate
  cases p.add_supporting_evidence <;> cases p.add_counter_evidence <;>
    cases p.new_confidence <;> rfl

theorem applyHypothesisUpdate_ruled_out_at (p : UpdateHypothesisParams) (h : Hypothesis) :
    (applyHypothesisUpdate p h).ruled_out_at = h.ruled_out_at := by
  unfold applyHypothesisUpdate
  cases p.add_supporting_evidence <;> cases p.add_counter_evidence <;>
    cases p.new_confidence <;> rfl

theorem applyHypothesisUpdate_none {p : UpdateHypothesisParams}
    (h1 : p.add_supporting_evidence = none) (h2 : p.add_counter_evidence = none)
    (h3 : p.new_confidence = none) (h : Hypothesis) :
    applyHypothesisUpdate p h = h := by
  simp [applyHypothesisUpdate, h1, h2, h3]

theorem saveMemory_read (s : Store) (m : IncidentMemory) (k : String) :
    saveMemory s m k = if k = m.incident_id then some m else s k := rfl

/-! Effect of each operation on the store, read back at an arbitrary key. -/

theorem create_store {newId now : String} {p : CreateIncidentParams} {s : Store} {k : String}
    {m' : IncidentMemory} (hm : applyOp (Op.create newId now p) s k = some m') :
    (k ≠ newId ∧ s k = some m') ∨ (k = newId ∧ m' = createRecord newId now p) := by
  by_cases hk : k = newId
  · right
    refine ⟨hk, ?_⟩
    simp only [applyOp, createIncident, saveMemory_read] at hm
    simp only [createRecord] at hm
    simp [hk] at hm
    exact hm.symm
  · left
    refine ⟨hk, ?_⟩
    simp only [applyOp, createIncident, saveMemory_read] at hm
    simp only [createRecord] at hm
    simpa [hk] using hm

theorem addEvent_store {now : String} {p : AddTimelineEventParams} {s : Store} {k : String}
    {m' : IncidentMemory} (hm : applyOp (Op.addEvent now p) s k = some m') :
    s k = some m' ∨
    ∃ memory, loadMemory s p.incident_id = some memory ∧ k = memory.incident_id ∧
      m' = addEventRecord now p memory := by
  rcases hl : loadMemory s p.incident_id with _ | memory
  · left
    simpa [applyOp, addTimelineEvent, hl, stepResult] using hm
  · simp only [applyOp, addTimelineEvent, hl, stepResult, saveMemory_read] at hm
    by_cases hk : k = memory.incident_id
    · right
      refine ⟨memory, rfl, hk, ?_⟩
      simp only [addEventRecord] at hm ⊢
      simp [hk] at hm
      exact hm.symm
    · left
      simp only [addEventRecord] at hm
      simpa [hk] using hm

theorem propose_store {now : String} {p : ProposeHypothesisParams} {s : Store} {k : String}
    {m' : IncidentMemory} (hm : applyOp (Op.propose now p) s k = some m') :
    s k = some m' ∨
    ∃ memory, loadMemory s p.incident_id = some memory ∧ k = memory.incident_id ∧
      m' = proposeRecord now p memory := by
  rcases hl : loadMemory s p.incident_id with _ | memory
  · left
    simpa [applyOp, proposeHypothesis, hl, stepResult] using hm
  · simp only [applyOp, proposeHypothesis, hl, stepResult, saveMemory_read] at hm
    by_cases hk : k = memory.incident_id
    · right
      refine ⟨memory, rfl, hk, ?_⟩
      simp only [proposeRecord] at hm ⊢
      simp [hk] at hm
      exact hm.symm
    · left
      simp only [proposeRecord] at hm
      simpa [hk] using hm

theorem updateHyp_store {p : UpdateHypothesisParams} {s : Store} {k : String}
    {m' : IncidentMemory} (hm : applyOp (Op.updateHyp p) s k = some m') :
    s k = some m' ∨
    ∃ memory h, loadMemory s p.incident_id = some memory ∧
      memory.hypotheses.find? (fun x => x.id == p.hypothesis_id) = some h ∧
      k = memory.incident_id ∧ m' = updateHypRecord p memory := by
  rcases hl : loadMemory s p.incident_id with _ | memory
  · left
    simpa [applyOp, updateHypothesis, hl, stepResult] using hm
  · rcases hf : memory.hypotheses.find? (fun x => x.id == p.hypothesis_id) with _ | hh
    · left
      simpa [applyOp, updateHypothesis, hl, hf, stepResult] using hm
    · simp only [applyOp, updateHypothesis, hl, hf, stepResult, saveMemory_read] at hm
      by_cases hk : k = memory.incident_id
      · right
        refine ⟨memory, hh, rfl, hf, hk, ?_⟩
        simp only [updateHypRecord] at hm ⊢
        simp [hk] at hm
        exact hm.symm
      · left
        simp only [updateHypRecord] at hm
        simpa [hk] using hm

theorem ruleOut_store {now : String} {p : RuleOutHypothesisParams} {s : Store} {k : String}
    {m' : IncidentMemory} (hm : applyOp (Op.ruleOut now p) s k = some m') :
    s k = some m' ∨
    ∃ memory h, loadMemory s p.incident_id = some memory ∧
      memory.hypotheses.find? (fun x => x.id == p.hypothesis_id) = some h ∧
      k = memory.incident_id ∧ m' = ruleOutRecord now p memory h := by
  rcases hl : loadMemory s p.incident_id with _ | memory
  · left
    simpa [applyOp, ruleOutHypothesis, hl, stepResult] using hm
  · rcases hf : memory.hypotheses.find? (fun x => x.id == p.hypothesis_id) with _ | hh
    · left
      simpa [applyOp, ruleOutHypothesis, hl, hf, stepResult] using hm
    · simp only [applyOp, ruleOutHypothesis, hl, hf, stepResult, saveMemory_read] at hm
      by_cases hk : k = memory.incident_id
      · right
        refine ⟨memory, hh, rfl, hf, hk, ?_⟩
        simp only [ruleOutRecord] at hm ⊢
        simp [hk] at hm
        exact hm.symm
      · left
        simp only [ruleOutRecord] at hm
        simpa [hk] using hm

theorem confirm_store {n1 n2 : String} {p : ConfirmRootCauseParams} {s : Store} {k : String}
    {m' : IncidentMemory} (hm : applyOp (Op.confirm n1 n2 p) s k = some m') :
    s k = some m' ∨
    ∃ memory h, loadMemory s p.incident_id = some memory ∧
      memory.hypotheses.find? (fun x => x.id == p.hypothesis_id) = some h ∧
      k = memory.incident_id ∧ m' = confirmRecord n1 n2 p memory h := by
  rcases hl : loadMemory s p.incident_id with _ | memory
  · left
    simpa [applyOp, confirmRootCause, hl, stepResult] using hm
  · rcases hf : memory.hypotheses.find? (fun x => x.id == p.hypothesis_id) with _ | hh
    · left
      simpa [applyOp, confirmRootCause, hl, hf, stepResult] using hm
    · simp only [applyOp, confirmRootCause, hl, hf, stepResult, saveMemory_read] at hm
      by_cases hk : k = memory.incident_id
      · right
        refine ⟨memory, hh, rfl, hf, hk, ?_⟩
        simp only [confirmRecord] at hm ⊢
        simp [hk] at hm
        exact hm.symm
      · left
        simp only [confirmRecord] at hm
        simpa [hk] using hm

theorem addFind_store {p : AddFindingParams} {s : Store} {k : String}
    {m' : IncidentMemory} (hm : applyOp (Op.addFind p) s k = some m') :
    s k = some m' ∨
    ∃ memory, loadMemory s p.incident_id = some memory ∧ k = memory.incident_id ∧
      m' = addFindRecord p memory := by
  rcases hl : loadMemory s p.incident_id with _ | memory
  · left
    simpa [applyOp, addFinding, hl, stepResult] using hm
  · simp only [applyOp, addFinding, hl, stepResult, saveMemory_read] at hm
    by_cases hk : k = memory.incident_id
    · right
      refine ⟨memory, rfl, hk, ?_⟩
      simp only [addFindRecord] at hm ⊢
      simp [hk] at hm
      exact hm.symm
    · left
      simp only [addFindRecord] at hm
      simpa [hk] using hm

theorem setTldr_store {now : String} {p : UpdateTLDRParams} {s : Store} {k : String}
    {m' : IncidentMemory} (hm : applyOp (Op.setTldr now p) s k = some m') :
    s k = some m' ∨
    ∃ memory, loadMemory s p.incident_id = some memory ∧ k = memory.incident_id ∧
      m' = setTldrRecord now p memory := by
  rcases hl : loadMemory s p.incident_id with _ | memory
  · left
    simpa [applyOp, updateTLDR, hl, stepResult] using hm
  · simp only [applyOp, updateTLDR, hl, stepResult, saveMemory_read] at hm
    by_cases hk : k = memory.incident_id
    · right
      refine ⟨memory, rfl, hk, ?_⟩
      simp only [setTldrRecord] at hm ⊢
      simp [hk] at hm
      exact hm.symm
    · left
      simp only [setTldrRecord] at hm
      simpa [hk] using hm

/-! Reachability machinery. -/

theorem reachable_invariant {G : Store → Op → Prop} {I : IncidentMemory → Prop}
    (H : ∀ s op, (∀ k m, s k = some m → I m) → G s op →
      ∀ k m, applyOp op s k = some m → I m) :
    ∀ {s}, ReachableUnder G s → ∀ k m, s k = some m → I m := by
  intro s hr
  induction hr with
  | base => intro k m hm; simp [emptyStore] at hm
  | step s' op hr' hg ih => exact H s' op ih hg

theorem applyOp_id_of_new {op : Op} {s : Store} {k : String} {m : IncidentMemory}
    (hm : applyOp op s k = some m) : s k = some m ∨ m.incident_id = k := by
  cases op with
  | create newId now p =>
    rcases create_store hm with ⟨_, h⟩ | ⟨hk, h⟩
    · exact Or.inl h
    · right; simp [h, createRecord, hk]
  | addEvent now p =>
    rcases addEvent_store hm with h | ⟨memory, _, hk, h⟩
    · exact Or.inl h
    · right; simp [h, addEventRecord, hk]
  | propose now p =>
    rcases propose_store hm with h | ⟨memory, _, hk, h⟩
    · exact Or.inl h
    · right; simp [h, proposeRecord, hk]
  | updateHyp p =>
    rcases updateHyp_store hm with h | ⟨memory, _, _, _, hk, h⟩
    · exact Or.inl h
    · right; simp [h, updateHypRecord, hk]
  | ruleOut now p =>
    rcases ruleOut_store hm with h | ⟨memory, _, _, _, hk, h⟩
    · exact Or.inl h
    · right; simp [h, ruleOutRecord, hk]
  | confirm n1 n2 p =>
    rcases confirm_store hm with h | ⟨memory, _, _, _, hk, h⟩
    · exact Or.inl h
    · right; simp [h, confirmRecord, hk]
  | addFind p =>
    rcases addFind_store hm with h | ⟨memory, _, hk, h⟩
    · exact Or.inl h
    · right; simp [h, addFindRecord, hk]
  | setTldr now p =>
    rcases setTldr_store hm with h | ⟨memory, _, hk, h⟩
    · exact Or.inl h
    · right; simp [h, setTldrRecord, hk]

theorem reachable_consistent {G : Store → Op → Prop} {s : Store}
    (hr : ReachableUnder G s) : StoreConsistent s := by
  induction hr with
  | base => intro k m hm; simp [emptyStore] at hm
  | step s' op hr' hg ih =>
    intro k m hm
    rcases applyOp_id_of_new hm with h | h
    · exact ih k m h
    · exact h

theorem exists_status_iff_of_map_eq {l l' : List Hypothesis}
    (h : l.map (fun x => x.status) = l'.map (fun x => x.status)) (c : HypothesisStatus) :
    (∃ x ∈ l, x.status = c) ↔ (∃ x ∈ l', x.status = c) := by
  have h1 : (∃ x ∈ l, x.status = c) ↔ c ∈ l.map (fun x => x.status) := by
    simp [List.mem_map, eq_comm]
  have h2 : (∃ x ∈ l', x.status = c) ↔ c ∈ l'.map (fun x => x.status) := by
    simp [List.mem_map, eq_comm]
  rw [h1, h2, h]

/-- C1 (amended): in every record reachable from `createIncident` by
state-machine operations in which `ruleOutHypothesis` is never applied to a
hypothesis already holding `confirmed_root_cause`, `metadata.status` is
`resolved` exactly when some hypothesis has status `confirmed_root_cause`.
(The unamended claim fails when a confirmed hypothesis is ruled out; see the
counterexample.) -/
theorem resolved_iff_some_confirmed {s : Store}
    (hr : ReachableUnder NoRuleOutConfirmed s) {k : String} {m : IncidentMemory}
    (hm : s k = some m) :
    (m.metadata.status = IncidentStatus.resolved ↔
      ∃ h ∈ m.hypotheses, h.status = HypothesisStatus.confirmed_root_cause) := by
  refine reachable_invariant
    (I := fun m => m.metadata.status = IncidentStatus.resolved ↔
      ∃ h ∈ m.hypotheses, h.status = HypothesisStatus.confirmed_root_cause)
    ?_ hr k m hm
  intro s' op ih hg k' m' hm'
  cases op with
  | create newId now p =>
    rcases create_store hm' with ⟨_, h⟩ | ⟨_, rfl⟩
    · exact ih _ _ h
    · simp [createRecord]
  | addEvent now p =>
    rcases addEvent_store hm' with h | ⟨memory, hl, _, rfl⟩
    · exact ih _ _ h
    · simpa [addEventRecord] using ih _ _ hl
  | propose now p =>
    rcases propose_store hm' with h | ⟨memory, hl, _, rfl⟩
    · exact ih _ _ h
    · simpa [proposeRecord, newHypothesis, List.mem_append, or_and_right, exists_or,
        exists_eq_left] using ih _ _ hl
  | updateHyp p =>
    rcases updateHyp_store hm' with h | ⟨memory, hh, hl, hf, _, rfl⟩
    · exact ih _ _ h
    · have hmap := updateFirst_map_eq (p := fun x => x.id == p.hypothesis_id)
        (f := applyHypothesisUpdate p) (fun x => x.status)
        (fun x => applyHypothesisUpdate_status p x) memory.hypotheses
      simpa [updateHypRecord, exists_status_iff_of_map_eq hmap] using ih _ _ hl
  | ruleOut now p =>
    rcases ruleOut_store hm' with h | ⟨memory, hh, hl, hf, _, rfl⟩
    · exact ih _ _ h
    · have hold : memory.metadata.status = IncidentStatus.resolved ↔
          ∃ h ∈ memory.hypotheses, h.status = HypothesisStatus.confirmed_root_cause :=
        ih _ _ hl
      have hstat : hh.status ≠ HypothesisStatus.confirmed_root_cause := hg _ _ hl hf
      obtain ⟨l₁, l₂, hdec, hl₁, hph, hupd⟩ :=
        updateFirst_decomp (f := fun h => { h with
          status := HypothesisStatus.ruled_out, ruled_out_at := some now }) hf
      rw [hdec] at hold
      simp only [ruleOutRecord, hupd]
      rw [hold]
      simp [List.mem_append, List.mem_cons, or_and_right, exists_or, exists_eq_left, hstat]
  | confirm n1 n2 p =>
    rcases confirm_store hm' with h | ⟨memory, hh, hl, hf, _, rfl⟩
    · exact ih _ _ h
    · obtain ⟨l₁, l₂, hdec, hl₁, hph, hupd⟩ :=
        updateFirst_decomp (f := fun h => { h with
          status := HypothesisStatus.confirmed_root_cause }) hf
      simp only [confirmRecord, hupd]
      simp [List.mem_append, List.mem_cons, or_and_right, exists_or, exists_eq_left]
  | addFind p =>
    rcases addFind_store hm' with h | ⟨memory, hl, _, rfl⟩
    · exact ih _ _ h
    · simpa [addFindRecord] using ih _ _ hl
  | setTldr now p =>
    rcases setTldr_store hm' with h | ⟨memory, hl, _, rfl⟩
    · exact ih _ _ h
    · simpa [setTldrRecord] using ih _ _ hl

/-- C1 counterexample: after create, propose, confirmRootCause, and then
ruleOutHypothesis on the confirmed hypothesis — a sequence of state-machine
operations starting from createIncident — the record has
`metadata.status = resolved` while no hypothesis holds
`confirmed_root_cause`, refuting the claimed invariant. -/
theorem resolved_iff_cex :
    Reachable store4c ∧
    (store4c "inc_1").map
      (fun m => (m.metadata.status, m.hypotheses.map fun h => h.status)) =
      some (IncidentStatus.resolved, [HypothesisStatus.ruled_out]) := by
  constructor
  · exact ReachableUnder.step _ _ (ReachableUnder.step _ _ (ReachableUnder.step _ _
      (ReachableUnder.step _ _ ReachableUnder.base trivial) trivial) trivial) trivial
  · decide

/-- C1 witness: the amended invariant instantiated on the concrete store
after create, propose, confirm. -/
theorem resolved_iff_witness :
    store3c "inc_1" = some (recOf store3c "inc_1") ∧
    ((recOf store3c "inc_1").metadata.status = IncidentStatus.resolved ↔
      ∃ h ∈ (recOf store3c "inc_1").hypotheses,
        h.status = HypothesisStatus.confirmed_root_cause) :=
  ⟨by decide, resolved_iff_some_confirmed (k := "inc_1")
    (ReachableUnder.step _ (Op.confirm tC tC confirmP)
      (ReachableUnder.step _ (Op.propose tB proposeP)
        (ReachableUnder.step _ (Op.create "inc_1" tA createP)
          ReachableUnder.base trivial) trivial) trivial)
    (by decide)⟩

theorem forall_stamp_of_map_eq {l l' : List Hypothesis}
    (h : l.map (fun x => (x.ruled_out_at, x.status)) =
      l'.map (fun x => (x.ruled_out_at, x.status)))
    (H : ∀ x ∈ l, x.ruled_out_at.isSome = true ↔ x.status = HypothesisStatus.ruled_out) :
    ∀ x ∈ l', x.ruled_out_at.isSome = true ↔ x.status = HypothesisStatus.ruled_out := by
  intro x hx
  have hmem : (x.ruled_out_at, x.status) ∈
      l'.map (fun x => (x.ruled_out_at, x.status)) :=
    List.mem_map_of_mem _ hx
  rw [← h] at hmem
  obtain ⟨y, hy, hxy⟩ := List.mem_map.mp hmem
  obtain ⟨h1, h2⟩ := Prod.mk.injEq _ _ _ _ ▸ hxy
  rw [← h1, ← h2]
  exact H y hy

/-- C2 (amended): in every record reachable from `createIncident` by
state-machine operations in which `confirmRootCause` is never applied to a
hypothesis already `ruled_out`, a hypothesis carries a `ruled_out_at` stamp
exactly when its status is `ruled_out`.  (The unamended claim fails when a
ruled-out hypothesis is confirmed; see the counterexample.) -/
theorem ruled_out_at_iff_ruled_out {s : Store}
    (hr : ReachableUnder NoConfirmRuledOut s) {k : String} {m : IncidentMemory}
    (hm : s k = some m) :
    ∀ h ∈ m.hypotheses,
      (h.ruled_out_at.isSome = true ↔ h.status = HypothesisStatus.ruled_out) := by
  refine reachable_invariant
    (I := fun m => ∀ h ∈ m.hypotheses,
      (h.ruled_out_at.isSome = true ↔ h.status = HypothesisStatus.ruled_out))
    ?_ hr k m hm
  intro s' op ih hg k' m' hm'
  cases op with
  | create newId now p =>
    rcases create_store hm' with ⟨_, h⟩ | ⟨_, rfl⟩
    · exact ih _ _ h
    · simp [createRecord]
  | addEvent now p =>
    rcases addEvent_store hm' with h | ⟨memory, hl, _, rfl⟩
    · exact ih _ _ h
    · simpa [addEventRecord] using ih _ _ hl
  | propose now p =>
    rcases propose_store hm' with h | ⟨memory, hl, _, rfl⟩
    · exact ih _ _ h
    · have hold : ∀ x ∈ memory.hypotheses,
          x.ruled_out_at.isSome = true ↔ x.status = HypothesisStatus.ruled_out := ih _ _ hl
      intro h hmem
      simp only [proposeRecord, List.mem_append, List.mem_singleton] at hmem
      rcases hmem with hmem | rfl
      · exact hold h hmem
      · simp [newHypothesis]
  | updateHyp p =>
    rcases updateHyp_store hm' with h | ⟨memory, hh, hl, hf, _, rfl⟩
    · exact ih _ _ h
    · have hmap := updateFirst_map_eq (p := fun x => x.id == p.hypothesis_id)
        (f := applyHypothesisUpdate p) (fun x => (x.ruled_out_at, x.status))
        (fun x => by
          simp [applyHypothesisUpdate_ruled_out_at, applyHypothesisUpdate_status])
        memory.hypotheses
      exact forall_stamp_of_map_eq hmap.symm (ih _ _ hl)
  | ruleOut now p =>
    rcases ruleOut_store hm' with h | ⟨memory, hh, hl, hf, _, rfl⟩
    · exact ih _ _ h
    · have hold : ∀ x ∈ memory.hypotheses,
          x.ruled_out_at.isSome = true ↔ x.status = HypothesisStatus.ruled_out := ih _ _ hl
      obtain ⟨l₁, l₂, hdec, hl₁, hph, hupd⟩ :=
        updateFirst_decomp (f := fun h => { h with
          status := HypothesisStatus.ruled_out, ruled_out_at := some now }) hf
      rw [hdec] at hold
      intro h hmem
      simp only [ruleOutRecord, hupd, List.mem_append, List.mem_cons] at hmem
      rcases hmem with hmem | rfl | hmem
      · exact hold h (by simp [List.mem_append, hmem])
      · simp
      · exact hold h (by simp [List.mem_append, List.mem_cons, Or.inr (Or.inr hmem)])
  | confirm n1 n2 p =>
    rcases confirm_store hm' with h | ⟨memory, hh, hl, hf, _, rfl⟩
    · exact ih _ _ h
    · have hold : ∀ x ∈ memory.hypotheses,
          x.ruled_out_at.isSome = true ↔ x.status = HypothesisStatus.ruled_out := ih _ _ hl
      have hstat : hh.status ≠ HypothesisStatus.ruled_out := hg _ _ hl hf
      obtain ⟨l₁, l₂, hdec, hl₁, hph, hupd⟩ :=
        updateFirst_decomp (f := fun h => { h with
          status := HypothesisStatus.confirmed_root_cause }) hf
      have hstamp : hh.ruled_out_at.isSome = false := by
        by_contra hcon
        have : hh.ruled_out_at.isSome = true := by
          cases hyp : hh.ruled_out_at.isSome
          · exact absurd hyp hcon
          · rfl
        exact hstat ((hold hh (by rw [hdec]; simp)).mp this)
      rw [hdec] at hold
      intro h hmem
      simp only [confirmRecord, hupd, List.mem_append, List.mem_cons] at hmem
      rcases hmem with hmem | rfl | hmem
      · exact hold h (by simp [List.mem_append, hmem])
      · simp [hstamp]
      · exact hold h (by simp [List.mem_append, List.mem_cons, Or.inr (Or.inr hmem)])
  | addFind p =>
    rcases addFind_store hm' with h | ⟨memory, hl, _, rfl⟩
    · exact ih _ _ h
    · simpa [addFindRecord] using ih _ _ hl
  | setTldr now p =>
    rcases setTldr_store hm' with h | ⟨memory, hl, _, rfl⟩
    · exact ih _ _ h
    · simpa [setTldrRecord] using ih _ _ hl

/-- C2 counterexample: after create, propose, ruleOutHypothesis, and then
confirmRootCause on the ruled-out hypothesis, the record's hypothesis has
status `confirmed_root_cause` while its `ruled_out_at` stamp is still
present, refuting the claimed invariant. -/
theorem ruled_out_at_iff_cex :
    Reachable store4r ∧
    (store4r "inc_1").map
      (fun m => m.hypotheses.map fun h => (h.status, h.ruled_out_at.isSome)) =
      some [(HypothesisStatus.confirmed_root_cause, true)] := by
  constructor
  · exact ReachableUnder.step _ _ (ReachableUnder.step _ _ (ReachableUnder.step _ _
      (ReachableUnder.step _ _ ReachableUnder.base trivial) trivial) trivial) trivial
  · decide

/-- C2 witness: the amended invariant instantiated on the concrete store
after create, propose, ruleOut. -/
theorem ruled_out_at_iff_witness :
    store3r "inc_1" = some (recOf store3r "inc_1") ∧
    ∀ h ∈ (recOf store3r "inc_1").hypotheses,
      (h.ruled_out_at.isSome = true ↔ h.status = HypothesisStatus.ruled_out) :=
  ⟨by decide, ruled_out_at_iff_ruled_out (k := "inc_1")
    (ReachableUnder.step _ (Op.ruleOut tC ruleOutP)
      (ReachableUnder.step _ (Op.propose tB proposeP)
        (ReachableUnder.step _ (Op.create "inc_1" tA createP)
          ReachableUnder.base trivial) trivial) trivial)
    (by decide)⟩

/-- C7: for every input, createIncident returns and persists a record with
metadata.status investigating, summary equal to the given description, empty
hypotheses, findings and ruled_out sequences, and a timeline holding exactly
one entry "Investigation started" from source user with the description as
detail. -/
theorem createIncident_spec (newId now : String) (p : CreateIncidentParams) (s : Store) :
    (createIncident newId now p s).1.metadata.status = IncidentStatus.investigating ∧
    (createIncident newId now p s).1.tldr.summary = p.initial_description ∧
    (createIncident newId now p s).1.hypotheses = [] ∧
    (createIncident newId now p s).1.findings = [] ∧
    (createIncident newId now p s).1.ruled_out = [] ∧
    (createIncident newId now p s).1.timeline =
      [{ timestamp := now
         event := "Investigation started"
         source := EventSource.user
         details := p.initial_description }] ∧
    loadMemory (createIncident newId now p s).2
      (createIncident newId now p s).1.incident_id = some (createIncident newId now p s).1 := by
  refine ⟨rfl, rfl, rfl, rfl, rfl, rfl, ?_⟩
  simp [createIncident, loadMemory, saveMemory, createRecord]

/-- C3 (amended): for an id with no stored record, the store-level load and
the state-machine getIncident both return the absent result, while
getHypotheses and getTimeline fail with the NotFound error.  (The claim that
getIncident also fails NotFound is refuted by the counterexample.) -/
theorem read_ops_on_absent (s : Store) (incidentId : String) (habs : s incidentId = none) :
    loadMemory s incidentId = none ∧
    getIncident s incidentId = none ∧
    getHypotheses s incidentId = Except.error ("Incident " ++ incidentId ++ " not found") ∧
    getTimeline s incidentId = Except.error ("Incident " ++ incidentId ++ " not found") := by
  refine ⟨habs, habs, ?_, ?_⟩ <;> simp [getHypotheses, getTimeline, loadMemory, habs]

/-- C3 counterexample: getIncident on a never-created id evaluates to the
absent result none — exactly the raw store-level load — rather than failing
with a NotFound error (its result type, mirroring the source's
`Promise<IncidentMemory | null>`, has no error case at all). -/
theorem getIncident_absent_cex :
    getIncident emptyStore "inc_missing" = none ∧
    getIncident emptyStore "inc_missing" = loadMemory emptyStore "inc_missing" :=
  ⟨rfl, rfl⟩

/-- C3 witness: the amended statement instantiated at the empty store. -/
theorem read_ops_on_absent_witness :
    emptyStore "inc_missing" = none ∧
    (loadMemory emptyStore "inc_missing" = none ∧
      getIncident emptyStore "inc_missing" = none ∧
      getHypotheses emptyStore "inc_missing" =
        Except.error ("Incident " ++ "inc_missing" ++ " not found") ∧
      getTimeline emptyStore "inc_missing" =
        Except.error ("Incident " ++ "inc_missing" ++ " not found")) :=
  ⟨rfl, read_ops_on_absent emptyStore "inc_missing" rfl⟩

/-- C8: updateHypothesis with none of the optional fields supplied leaves
the record — in particular every hypothesis's evidence lists and confidence —
unchanged, yet still persists it: the call returns the loaded record and a
store in which loading the id yields the same record as before. -/
theorem updateHypothesis_noop {p : UpdateHypothesisParams} {s : Store} {m : IncidentMemory}
    (hload : loadMemory s p.incident_id = some m)
    (hid : m.incident_id = p.incident_id)
    (hfind : (m.hypotheses.find? (fun x => x.id == p.hypothesis_id)).isSome = true)
    (h1 : p.add_supporting_evidence = none) (h2 : p.add_counter_evidence = none)
    (h3 : p.new_confidence = none) :
    updateHypothesis p s = Except.ok (m, saveMemory s m) ∧
    loadMemory (saveMemory s m) p.incident_id = some m := by
  have hrec : updateHypRecord p m = m := by
    simp [updateHypRecord,
      updateFirst_eq_self (fun x _ => applyHypothesisUpdate_none h1 h2 h3 x)]
  rcases hf : m.hypotheses.find? (fun x => x.id == p.hypothesis_id) with _ | hh
  · rw [hf] at hfind
    simp at hfind
  · constructor
    · simp [updateHypothesis, hload, hf, hrec]
    · simp [loadMemory, saveMemory, hid]

/-- C8 witness: a no-op update of hyp_1 on the fixture incident. -/
theorem updateHypothesis_noop_witness :
    updateHypothesis noopP store2 =
      Except.ok (recOf store2 "inc_1", saveMemory store2 (recOf store2 "inc_1")) ∧
    loadMemory (saveMemory store2 (recOf store2 "inc_1")) "inc_1" =
      some (recOf store2 "inc_1") :=
  updateHypothesis_noop (by decide) (by decide) (by decide) rfl rfl rfl

/-- C10: ruleOutHypothesis modifies only the targeted (first matching)
hypothesis — setting its status to ruled_out and stamping ruled_out_at with
the clock value — and appends exactly one audit entry whose ruled_out_at
equals the stamp put on the hypothesis; the record's id, name, metadata
(status included), tldr, timeline, findings and all other hypotheses are
unchanged: no timeline event is appended and the summary is not rewritten. -/
theorem ruleOutHypothesis_frame {now : String} {p : RuleOutHypothesisParams} {s : Store}
    {m : IncidentMemory} {h : Hypothesis}
    (hload : loadMemory s p.incident_id = some m)
    (hfind : m.hypotheses.find? (fun x => x.id == p.hypothesis_id) = some h) :
    ∃ m' l₁ l₂,
      ruleOutHypothesis now p s = Except.ok (m', saveMemory s m') ∧
      m'.incident_id = m.incident_id ∧
      m'.incident_name = m.incident_name ∧
      m'.metadata = m.metadata ∧
      m'.tldr = m.tldr ∧
      m'.timeline = m.timeline ∧
      m'.findings = m.findings ∧
      m'.ruled_out = m.ruled_out ++
        [{ hypothesis := h.title, reason := p.reason, ruled_out_at := now }] ∧
      m.hypotheses = l₁ ++ h :: l₂ ∧
      (∀ x ∈ l₁, (x.id == p.hypothesis_id) = false) ∧
      m'.hypotheses = l₁ ++
        { h with status := HypothesisStatus.ruled_out, ruled_out_at := some now } :: l₂ := by
  obtain ⟨l₁, l₂, hdec, hl₁, hph, hupd⟩ :=
    updateFirst_decomp (f := fun x => { x with
      status := HypothesisStatus.ruled_out, ruled_out_at := some now }) hfind
  refine ⟨ruleOutRecord now p m h, l₁, l₂, ?_, rfl, rfl, rfl, rfl, rfl, rfl, rfl,
    hdec, hl₁, ?_⟩
  · simp [ruleOutHypothesis, hload, hfind]
  · simp [ruleOutRecord, hupd]

/-- C10 witness: ruling out hyp_1 on the fixture incident at time tC. -/
theorem ruleOutHypothesis_frame_witness :
    ∃ m' l₁ l₂,
      ruleOutHypothesis tC ruleOutP store2 = Except.ok (m', saveMemory store2 m') ∧
      m'.incident_id = (recOf store2 "inc_1").incident_id ∧
      m'.incident_name = (recOf store2 "inc_1").incident_name ∧
      m'.metadata = (recOf store2 "inc_1").metadata ∧
      m'.tldr = (recOf store2 "inc_1").tldr ∧
      m'.timeline = (recOf store2 "inc_1").timeline ∧
      m'.findings = (recOf store2 "inc_1").findings ∧
      m'.ruled_out = (recOf store2 "inc_1").ruled_out ++
        [{ hypothesis := (hypOf store2 "inc_1" "hyp_1").title
           reason := ruleOutP.reason
           ruled_out_at := tC }] ∧
      (recOf store2 "inc_1").hypotheses = l₁ ++ hypOf store2 "inc_1" "hyp_1" :: l₂ ∧
      (∀ x ∈ l₁, (x.id == ruleOutP.hypothesis_id) = false) ∧
      m'.hypotheses = l₁ ++
        { hypOf store2 "inc_1" "hyp_1" with
          status := HypothesisStatus.ruled_out, ruled_out_at := some tC } :: l₂ :=
  ruleOutHypothesis_frame (by decide) (by decide)

/-- C9 counterexample: the tool name "frobnicate_logs" is not a memory
operation and is not anything the dispatcher knows, yet `executeTool` does
not fail with an UnknownTool error — its routing forwards the name verbatim
to the external log-query collaborator. -/
theorem dispatch_unknown_cex :
    memoryToolNames.contains "frobnicate_logs" = false ∧
    executeToolRoute "frobnicate_logs" emptyInput =
      ToolRoute.mcp "frobnicate_logs" emptyInput := by
  constructor
  · decide
  · decide

/-- C9 (amended): the dispatcher routes a known memory-operation name to the
memory executor and forwards every other name — whether or not the external
collaborator provides it — verbatim to that collaborator; it never raises an
UnknownTool error itself.  The switch of the memory executor accepts exactly
the names in `memoryToolNames` and fails with the `Unknown memory tool`
error on every other name (a branch the dispatcher can never reach). -/
theorem dispatch_routes (name : String) (input : ToolInput) :
    (memoryToolNames.contains name = true →
      executeToolRoute name input = ToolRoute.memory name input) ∧
    (memoryToolNames.contains name = false →
      executeToolRoute name input = ToolRoute.mcp name input) ∧
    (memoryToolNames.contains name = true →
      ∃ tag, memoryToolSwitch name = Except.ok tag) ∧
    (memoryToolNames.contains name = false →
      memoryToolSwitch name = Except.error ("Unknown memory tool: " ++ name)) := by
  refine ⟨?_, ?_, ?_, ?_⟩
  · intro h
    unfold executeToolRoute
    rw [h]
    simp
  · intro h
    unfold executeToolRoute
    rw [h]
    simp
  · intro h
    have hmem : name ∈ memoryToolNames := List.mem_of_elem_eq_true h
    simp [memoryToolNames] at hmem
    rcases hmem with rfl | rfl | rfl | rfl | rfl | rfl | rfl | rfl | rfl | rfl | rfl | rfl <;>
      exact ⟨_, rfl⟩
  · intro h
    have hmem : name ∉ memoryToolNames := by
      simpa using h
    simp [memoryToolNames] at hmem
    obtain ⟨h1, h2, h3, h4, h5, h6, h7, h8, h9, h10, h11, h12⟩ := hmem
    simp [memoryToolSwitch, h1, h2, h3, h4, h5, h6, h7, h8, h9, h10, h11, h12]

/-- C9 witness: the routing statements instantiated at a known memory tool
name and at an unknown name. -/
theorem dispatch_routes_witness :
    executeToolRoute "rule_out_hypothesis" emptyInput =
      ToolRoute.memory "rule_out_hypothesis" emptyInput ∧
    executeToolRoute "frobnicate_logs" emptyInput =
      ToolRoute.mcp "frobnicate_logs" emptyInput ∧
    (∃ tag, memoryToolSwitch "rule_out_hypothesis" = Except.ok tag) ∧
    memoryToolSwitch "frobnicate_logs" =
      Except.error ("Unknown memory tool: " ++ "frobnicate_logs") :=
  ⟨(dispatch_routes "rule_out_hypothesis" emptyInput).1 (by decide),
   (dispatch_routes "frobnicate_logs" emptyInput).2.1 (by decide),
   (dispatch_routes "rule_out_hypothesis" emptyInput).2.2.1 (by decide),
   (dispatch_routes "frobnicate_logs" emptyInput).2.2.2 (by decide)⟩

theorem updateFirst_get? {α : Type} (p : α → Bool) (f : α → α) (l : List α) (i : Nat) :
    (updateFirst p f l).get? i = l.get? i ∨
    ∃ x, l.get? i = some x ∧ (updateFirst p f l).get? i = some (f x) := by
  induction l generalizing i with
  | nil => left; rfl
  | cons a as ih =>
    by_cases hp : p a
    · cases i with
      | zero => right; exact ⟨a, rfl, by simp [updateFirst, hp]⟩
      | succ n => left; simp [updateFirst, hp]
    · cases i with
      | zero => left; simp [updateFirst, hp]
      | succ n => simpa [updateFirst, hp] using ih n

theorem keep_slot {l l' : List Hypothesis} (he : l = l') {i : Nat} {h h' : Hypothesis}
    (hi : l.get? i = some h) (hi' : l'.get? i = some h')
    (hs : h.status ≠ HypothesisStatus.investigating) :
    h'.id = h.id ∧ h'.status ≠ HypothesisStatus.investigating := by
  subst he
  rw [hi] at hi'
  obtain rfl : h = h' := Option.some.inj hi'
  exact ⟨rfl, hs⟩

/-- C5 (amended): no operation ever returns a hypothesis to status
investigating: in any reachable store, a hypothesis whose status is
confirmed_root_cause or ruled_out still has the same id and a
non-investigating status at its position after any further operation.  (The
unamended claim — that a terminal status never changes at all — is refuted by
the counterexample: ruleOutHypothesis applied to a confirmed hypothesis
switches its status to ruled_out, and confirmRootCause applied to a
ruled-out hypothesis switches it to confirmed_root_cause.) -/
theorem terminal_status_never_investigating (s : Store) (hr : Reachable s)
    (op : Op) (k : String) (m m' : IncidentMemory) (i : Nat) (h h' : Hypothesis)
    (hm : s k = some m) (hm' : applyOp op s k = some m')
    (hi : m.hypotheses.get? i = some h) (hi' : m'.hypotheses.get? i = some h')
    (hs : h.status ≠ HypothesisStatus.investigating) :
    h'.id = h.id ∧ h'.status ≠ HypothesisStatus.investigating := by
  have hcons : StoreConsistent s := reachable_consistent hr
  cases op with
  | create newId now p =>
    rcases create_store hm' with ⟨_, hsk⟩ | ⟨_, rfl⟩
    · exact keep_slot (congrArg IncidentMemory.hypotheses
        (Option.some.inj (hm.symm.trans hsk))) hi hi' hs
    · simp [createRecord] at hi'
  | addEvent now p =>
    rcases addEvent_store hm' with hsk | ⟨memory, hl, hk, rfl⟩
    · exact keep_slot (congrArg IncidentMemory.hypotheses
        (Option.some.inj (hm.symm.trans hsk))) hi hi' hs
    · have hkp : k = p.incident_id := hk.trans (hcons _ _ hl)
      obtain rfl : m = memory := Option.some.inj ((hkp ▸ hm).symm.trans hl)
      simp only [addEventRecord] at hi'
      exact keep_slot rfl hi hi' hs
  | propose now p =>
    rcases propose_store hm' with hsk | ⟨memory, hl, hk, rfl⟩
    · exact keep_slot (congrArg IncidentMemory.hypotheses
        (Option.some.inj (hm.symm.trans hsk))) hi hi' hs
    · have hkp : k = p.incident_id := hk.trans (hcons _ _ hl)
      obtain rfl : m = memory := Option.some.inj ((hkp ▸ hm).symm.trans hl)
      simp only [proposeRecord] at hi'
      have hlt : i < m.hypotheses.length := List.get?_eq_some.mp hi |>.1
      rw [List.get?_append hlt] at hi'
      exact keep_slot rfl hi hi' hs
  | updateHyp p =>
    rcases updateHyp_store hm' with hsk | ⟨memory, hh, hl, hf, hk, rfl⟩
    · exact keep_slot (congrArg IncidentMemory.hypotheses
        (Option.some.inj (hm.symm.trans hsk))) hi hi' hs
    · have hkp : k = p.incident_id := hk.trans (hcons _ _ hl)
      obtain rfl : m = memory := Option.some.inj ((hkp ▸ hm).symm.trans hl)
      simp only [updateHypRecord] at hi'
      rcases updateFirst_get? (fun x => x.id == p.hypothesis_id)
          (applyHypothesisUpdate p) m.hypotheses i with hcase | ⟨x, hx, hfx⟩
      · rw [hcase] at hi'
        exact keep_slot rfl hi hi' hs
      · obtain rfl : applyHypothesisUpdate p x = h' :=
          Option.some.inj (hfx.symm.trans hi')
        obtain rfl : x = h := Option.some.inj (hx.symm.trans hi)
        refine ⟨applyHypothesisUpdate_id p _, ?_⟩
        rw [applyHypothesisUpdate_status]
        exact hs
  | ruleOut now p =>
    rcases ruleOut_store hm' with hsk | ⟨memory, hh, hl, hf, hk, rfl⟩
    · exact keep_slot (congrArg IncidentMemory.hypotheses
        (Option.some.inj (hm.symm.trans hsk))) hi hi' hs
    · have hkp : k = p.incident_id := hk.trans (hcons _ _ hl)
      obtain rfl : m = memory := Option.some.inj ((hkp ▸ hm).symm.trans hl)
      simp only [ruleOutRecord] at hi'
      rcases updateFirst_get? (fun x => x.id == p.hypothesis_id)
          (fun x => { x with
            status := HypothesisStatus.ruled_out, ruled_out_at := some now })
          m.hypotheses i with hcase | ⟨x, hx, hfx⟩
      · rw [hcase] at hi'
        exact keep_slot rfl hi hi' hs
      · obtain rfl : { x with
            status := HypothesisStatus.ruled_out, ruled_out_at := some now } = h' :=
          Option.some.inj (hfx.symm.trans hi')
        obtain rfl : x = h := Option.some.inj (hx.symm.trans hi)
        exact ⟨rfl, by simp⟩
  | confirm n1 n2 p =>
    rcases confirm_store hm' with hsk | ⟨memory, hh, hl, hf, hk, rfl⟩
    · exact keep_slot (congrArg IncidentMemory.hypotheses
        (Option.some.inj (hm.symm.trans hsk))) hi hi' hs
    · have hkp : k = p.incident_id := hk.trans (hcons _ _ hl)
      obtain rfl : m = memory := Option.some.inj ((hkp ▸ hm).symm.trans hl)
      simp only [confirmRecord] at hi'
      rcases updateFirst_get? (fun x => x.id == p.hypothesis_id)
          (fun x => { x with status := HypothesisStatus.confirmed_root_cause })
          m.hypotheses i with hcase | ⟨x, hx, hfx⟩
      · rw [hcase] at hi'
        exact keep_slot rfl hi hi' hs
      · obtain rfl : { x with status := HypothesisStatus.confirmed_root_cause } = h' :=
          Option.some.inj (hfx.symm.trans hi')
        obtain rfl : x = h := Option.some.inj (hx.symm.trans hi)
        exact ⟨rfl, by simp⟩
  | addFind p =>
    rcases addFind_store hm' with hsk | ⟨memory, hl, hk, rfl⟩
    · exact keep_slot (congrArg IncidentMemory.hypotheses
        (Option.some.inj (hm.symm.trans hsk))) hi hi' hs
    · have hkp : k = p.incident_id := hk.trans (hcons _ _ hl)
      obtain rfl : m = memory := Option.some.inj ((hkp ▸ hm).symm.trans hl)
      simp only [addFindRecord] at hi'
      exact keep_slot rfl hi hi' hs
  | setTldr now p =>
    rcases setTldr_store hm' with hsk | ⟨memory, hl, hk, rfl⟩
    · exact keep_slot (congrArg IncidentMemory.hypotheses
        (Option.some.inj (hm.symm.trans hsk))) hi hi' hs
    · have hkp : k = p.incident_id := hk.trans (hcons _ _ hl)
      obtain rfl : m = memory := Option.some.inj ((hkp ▸ hm).symm.trans hl)
      simp only [setTldrRecord] at hi'
      exact keep_slot rfl hi hi' hs

/-- C5 counterexample: in the reachable store where hyp_1 has already been
confirmed as root cause, one further ruleOutHypothesis call on hyp_1 changes
its status from confirmed_root_cause to ruled_out — a terminal status is not
terminal. -/
theorem terminal_status_cex :
    Reachable store3c ∧
    (store3c "inc_1").map (fun m => m.hypotheses.map fun h => h.status) =
      some [HypothesisStatus.confirmed_root_cause] ∧
    store4c = applyOp (Op.ruleOut tD ruleOutP) store3c ∧
    (store4c "inc_1").map (fun m => m.hypotheses.map fun h => h.status) =
      some [HypothesisStatus.ruled_out] := by
  refine ⟨?_, by decide, rfl, by decide⟩
  exact ReachableUnder.step _ _ (ReachableUnder.step _ _
    (ReachableUnder.step _ _ ReachableUnder.base trivial) trivial) trivial

/-- C5 witness: the amended statement instantiated on the store where hyp_1
is ruled out and the next operation confirms it: the id is stable and the
status, though changed, does not return to investigating. -/
theorem terminal_status_witness :
    (hypOf store4r "inc_1" "hyp_1").id = (hypOf store3r "inc_1" "hyp_1").id ∧
    (hypOf store4r "inc_1" "hyp_1").status ≠ HypothesisStatus.investigating :=
  terminal_status_never_investigating store3r
    (ReachableUnder.step _ (Op.ruleOut tC ruleOutP)
      (ReachableUnder.step _ (Op.propose tB proposeP)
        (ReachableUnder.step _ (Op.create "inc_1" tA createP)
          ReachableUnder.base trivial) trivial) trivial)
    (Op.confirm tD tD confirmP) "inc_1"
    (recOf store3r "inc_1") (recOf store4r "inc_1") 0
    (hypOf store3r "inc_1" "hyp_1") (hypOf store4r "inc_1" "hyp_1")
    (by decide) (by decide) (by decide) (by decide) (by decide)

/-! Injectivity of the decimal id encoding. -/

theorem digitVal_digitChar {n : Nat} (h : n < 10) : digitVal (Nat.digitChar n) = n := by
  interval_cases n <;> decide

theorem decode_toDigitsCore : ∀ (f n : Nat) (ds : List Char), n < 10 ^ f →
    List.foldl (fun acc c => 10 * acc + digitVal c) 0 (Nat.toDigitsCore 10 f n ds) =
    List.foldl (fun acc c => 10 * acc + digitVal c) n ds := by
  intro f
  induction f with
  | zero =>
    intro n ds h
    interval_cases n
    rfl
  | succ f ih =>
    intro n ds h
    rw [Nat.toDigitsCore]
    by_cases hz : n / 10 = 0
    · simp only [hz, if_true]
      have hn10 : n < 10 := by omega
      simp only [List.foldl]
      rw [digitVal_digitChar (Nat.mod_lt n (by norm_num))]
      rw [Nat.mod_eq_of_lt hn10]
      norm_num
    · simp only [hz, if_false]
      have hb : n / 10 < 10 ^ f := by
        rw [Nat.div_lt_iff_lt_mul (by norm_num)]
        calc n < 10 ^ (f + 1) := h
        _ = 10 ^ f * 10 := by rw [pow_succ]
      rw [ih (n / 10) _ hb]
      simp only [List.foldl]
      rw [digitVal_digitChar (Nat.mod_lt n (by norm_num))]
      have hdm : 10 * (n / 10) + n % 10 = n := by omega
      rw [hdm]

theorem decodeChars_toDigits (n : Nat) : decodeChars (Nat.toDigits 10 n) = n := by
  have hb : n < 10 ^ (n + 1) :=
    lt_of_lt_of_le (Nat.lt_pow_self (by norm_num) n)
      (Nat.pow_le_pow_right (by norm_num) (Nat.le_succ n))
  simpa [decodeChars, Nat.toDigits] using decode_toDigitsCore (n + 1) n [] hb

theorem repr_inj {a b : Nat} (h : Nat.repr a = Nat.repr b) : a = b := by
  have hd : Nat.toDigits 10 a = Nat.toDigits 10 b := by
    have := congrArg String.data h
    simpa [Nat.repr, List.asString] using this
  rw [← decodeChars_toDigits a, ← decodeChars_toDigits b, hd]

theorem positionId_injective : Function.Injective positionId := by
  intro a b h
  have hd := congrArg String.data h
  simp only [positionId, String.data_append] at hd
  have hr : (Nat.repr (a + 1)).data = (Nat.repr (b + 1)).data :=
    List.append_cancel_left hd
  have hrepr : Nat.repr (a + 1) = Nat.repr (b + 1) := by
    cases hra : Nat.repr (a + 1)
    cases hrb : Nat.repr (b + 1)
    simp_all
  have := repr_inj hrepr
  omega

theorem canonicalIds_nodup (n : Nat) : (canonicalIds n).Nodup :=
  List.Nodup.map positionId_injective (List.nodup_range n)

theorem canonicalIds_succ (n : Nat) :
    canonicalIds (n + 1) = canonicalIds n ++ [positionId n] := by
  simp [canonicalIds, List.range_succ]

theorem updateFirst_length {α : Type} (p : α → Bool) (f : α → α) (l : List α) :
    (updateFirst p f l).length = l.length := by
  induction l with
  | nil => rfl
  | cons x xs ih =>
    by_cases hx : p x
    · simp [updateFirst, hx]
    · simp [updateFirst, hx, ih]

theorem hyp_ids_canonical {G : Store → Op → Prop} {s : Store}
    (hr : ReachableUnder G s) {k : String} {m : IncidentMemory} (hm : s k = some m) :
    m.hypotheses.map (fun h => h.id) = canonicalIds m.hypotheses.length := by
  refine reachable_invariant
    (I := fun m => m.hypotheses.map (fun h => h.id) = canonicalIds m.hypotheses.length)
    ?_ hr k m hm
  intro s' op ih hg k' m' hm'
  cases op with
  | create newId now p =>
    rcases create_store hm' with ⟨_, h⟩ | ⟨_, rfl⟩
    · exact ih _ _ h
    · simp [createRecord, canonicalIds]
  | addEvent now p =>
    rcases addEvent_store hm' with h | ⟨memory, hl, _, rfl⟩
    · exact ih _ _ h
    · simpa [addEventRecord] using ih _ _ hl
  | propose now p =>
    rcases propose_store hm' with h | ⟨memory, hl, _, rfl⟩
    · exact ih _ _ h
    · have hold : memory.hypotheses.map (fun h => h.id) =
          canonicalIds memory.hypotheses.length := ih _ _ hl
      simp only [proposeRecord, List.map_append, List.length_append, List.map_cons,
        List.map_nil, List.length_cons, List.length_nil]
      rw [canonicalIds_succ, hold]
      simp [newHypothesis, generateHypothesisId, positionId]
  | updateHyp p =>
    rcases updateHyp_store hm' with h | ⟨memory, hh, hl, hf, _, rfl⟩
    · exact ih _ _ h
    · have hold : memory.hypotheses.map (fun h => h.id) =
          canonicalIds memory.hypotheses.length := ih _ _ hl
      have hmap := updateFirst_map_eq (p := fun x => x.id == p.hypothesis_id)
        (f := applyHypothesisUpdate p) (fun x => x.id)
        (fun x => applyHypothesisUpdate_id p x) memory.hypotheses
      simp only [updateHypRecord]
      rw [hmap, updateFirst_length, hold]
  | ruleOut now p =>
    rcases ruleOut_store hm' with h | ⟨memory, hh, hl, hf, _, rfl⟩
    · exact ih _ _ h
    · have hold : memory.hypotheses.map (fun h => h.id) =
          canonicalIds memory.hypotheses.length := ih _ _ hl
      have hmap := updateFirst_map_eq (p := fun x => x.id == p.hypothesis_id)
        (f := fun x => { x with
          status := HypothesisStatus.ruled_out, ruled_out_at := some now })
        (fun x => x.id) (fun x => rfl) memory.hypotheses
      simp only [ruleOutRecord]
      rw [hmap, updateFirst_length, hold]
  | confirm n1 n2 p =>
    rcases confirm_store hm' with h | ⟨memory, hh, hl, hf, _, rfl⟩
    · exact ih _ _ h
    · have hold : memory.hypotheses.map (fun h => h.id) =
          canonicalIds memory.hypotheses.length := ih _ _ hl
      have hmap := updateFirst_map_eq (p := fun x => x.id == p.hypothesis_id)
        (f := fun x => { x with status := HypothesisStatus.confirmed_root_cause })
        (fun x => x.id) (fun x => rfl) memory.hypotheses
      simp only [confirmRecord]
      rw [hmap, updateFirst_length, hold]
  | addFind p =>
    rcases addFind_store hm' with h | ⟨memory, hl, _, rfl⟩
    · exact ih _ _ h
    · simpa [addFindRecord] using ih _ _ hl
  | setTldr now p =>
    rcases setTldr_store hm' with h | ⟨memory, hl, _, rfl⟩
    · exact ih _ _ h
    · simpa [setTldrRecord] using ih _ _ hl

/-- C6: on every existing incident record, proposeHypothesis appends exactly
one hypothesis with status investigating and id `hyp_` followed by its
1-based position; in every store reachable with non-colliding generated
incident ids, the hypothesis ids of a record are pairwise distinct, and any
further operation only extends the id sequence (so an id, once assigned to a
position, is never reassigned). -/
theorem proposeHypothesis_ids {s : Store} (hr : ReachableUnder FreshCreateIds s) :
    (∀ k m, s k = some m → (m.hypotheses.map fun h => h.id).Nodup) ∧
    (∀ now p memory, loadMemory s p.incident_id = some memory →
      proposeHypothesis now p s =
        Except.ok (proposeRecord now p memory, saveMemory s (proposeRecord now p memory)) ∧
      (proposeRecord now p memory).hypotheses =
        memory.hypotheses ++ [newHypothesis now p memory] ∧
      (newHypothesis now p memory).status = HypothesisStatus.investigating ∧
      (newHypothesis now p memory).id =
        "hyp_" ++ Nat.repr (memory.hypotheses.length + 1)) ∧
    (∀ op, FreshCreateIds s op → ∀ k m m', s k = some m → applyOp op s k = some m' →
      ∃ rest, m'.hypotheses.map (fun h => h.id) =
        m.hypotheses.map (fun h => h.id) ++ rest) := by
  have hcons : StoreConsistent s := reachable_consistent hr
  refine ⟨?_, ?_, ?_⟩
  · intro k m hm
    rw [hyp_ids_canonical hr hm]
    exact canonicalIds_nodup _
  · intro now p memory hl
    refine ⟨?_, rfl, rfl, rfl⟩
    simp [proposeHypothesis, hl]
  · intro op hg k m m' hm hm'
    cases op with
    | create newId now p =>
      rcases create_store hm' with ⟨_, hsk⟩ | ⟨hk, rfl⟩
      · obtain rfl : m = m' := Option.some.inj (hm.symm.trans hsk)
        exact ⟨[], by simp⟩
      · rw [hk] at hm
        rw [hg] at hm
        cases hm
    | addEvent now p =>
      rcases addEvent_store hm' with hsk | ⟨memory, hl, hk, rfl⟩
      · obtain rfl : m = m' := Option.some.inj (hm.symm.trans hsk)
        exact ⟨[], by simp⟩
      · have hkp : k = p.incident_id := hk.trans (hcons _ _ hl)
        obtain rfl : m = memory := Option.some.inj ((hkp ▸ hm).symm.trans hl)
        exact ⟨[], by simp [addEventRecord]⟩
    | propose now p =>
      rcases propose_store hm' with hsk | ⟨memory, hl, hk, rfl⟩
      · obtain rfl : m = m' := Option.some.inj (hm.symm.trans hsk)
        exact ⟨[], by simp⟩
      · have hkp : k = p.incident_id := hk.trans (hcons _ _ hl)
        obtain rfl : m = memory := Option.some.inj ((hkp ▸ hm).symm.trans hl)
        exact ⟨[(newHypothesis now p m).id], by simp [proposeRecord]⟩
    | updateHyp p =>
      rcases updateHyp_store hm' with hsk | ⟨memory, hh, hl, hf, hk, rfl⟩
      · obtain rfl : m = m' := Option.some.inj (hm.symm.trans hsk)
        exact ⟨[], by simp⟩
      · have hkp : k = p.incident_id := hk.trans (hcons _ _ hl)
        obtain rfl : m = memory := Option.some.inj ((hkp ▸ hm).symm.trans hl)
        refine ⟨[], ?_⟩
        have hmap := updateFirst_map_eq (p := fun x => x.id == p.hypothesis_id)
          (f := applyHypothesisUpdate p) (fun x => x.id)
          (fun x => applyHypothesisUpdate_id p x) m.hypotheses
        simp [updateHypRecord, hmap]
    | ruleOut now p =>
      rcases ruleOut_store hm' with hsk | ⟨memory, hh, hl, hf, hk, rfl⟩
      · obtain rfl : m = m' := Option.some.inj (hm.symm.trans hsk)
        exact ⟨[], by simp⟩
      · have hkp : k = p.incident_id := hk.trans (hcons _ _ hl)
        obtain rfl : m = memory := Option.some.inj ((hkp ▸ hm).symm.trans hl)
        refine ⟨[], ?_⟩
        have hmap := updateFirst_map_eq (p := fun x => x.id == p.hypothesis_id)
          (f := fun x => { x with
            status := HypothesisStatus.ruled_out, ruled_out_at := some now })
          (fun x => x.id) (fun x => rfl) m.hypotheses
        simp [ruleOutRecord, hmap]
    | confirm n1 n2 p =>
      rcases confirm_store hm' with hsk | ⟨memory, hh, hl, hf, hk, rfl⟩
      · obtain rfl : m = m' := Option.some.inj (hm.symm.trans hsk)
        exact ⟨[], by simp⟩
      · have hkp : k = p.incident_id := hk.trans (hcons _ _ hl)
        obtain rfl : m = memory := Option.some.inj ((hkp ▸ hm).symm.trans hl)
        refine ⟨[], ?_⟩
        have hmap := updateFirst_map_eq (p := fun x => x.id == p.hypothesis_id)
          (f := fun x => { x with status := HypothesisStatus.confirmed_root_cause })
          (fun x => x.id) (fun x => rfl) m.hypotheses
        simp [confirmRecord, hmap]
    | addFind p =>
      rcases addFind_store hm' with hsk | ⟨memory, hl, hk, rfl⟩
      · obtain rfl : m = m' := Option.some.inj (hm.symm.trans hsk)
        exact ⟨[], by simp⟩
      · have hkp : k = p.incident_id := hk.trans (hcons _ _ hl)
        obtain rfl : m = memory := Option.some.inj ((hkp ▸ hm).symm.trans hl)
        exact ⟨[], by simp [addFindRecord]⟩
    | setTldr now p =>
      rcases setTldr_store hm' with hsk | ⟨memory, hl, hk, rfl⟩
      · obtain rfl : m = m' := Option.some.inj (hm.symm.trans hsk)
        exact ⟨[], by simp⟩
      · have hkp : k = p.incident_id := hk.trans (hcons _ _ hl)
        obtain rfl : m = memory := Option.some.inj ((hkp ▸ hm).symm.trans hl)
        exact ⟨[], by simp [setTldrRecord]⟩

/-- C6 witness: pairwise-distinct hypothesis ids on the concrete store after
create and one proposal. -/
theorem proposeHypothesis_ids_witness :
    ((recOf store2 "inc_1").hypotheses.map fun h => h.id).Nodup :=
  (proposeHypothesis_ids
    (ReachableUnder.step _ (Op.propose tB proposeP)
      (ReachableUnder.step _ (Op.create "inc_1" tA createP)
        ReachableUnder.base rfl) trivial)).1
    "inc_1" (recOf store2 "inc_1") (by decide)

theorem clocked_timeline_invariant {t : String} {s : Store} (hr : ClockedReach t s) :
    ∀ k m, s k = some m →
      List.Sorted timelineOrder m.timeline ∧ ∀ e ∈ m.timeline, tsLe e.timestamp t := by
  induction hr with
  | base t =>
    intro k m hm
    simp [emptyStore] at hm
  | step t s op hreach hok ih =>
    intro k m hm
    cases op with
    | create newId now p =>
      rcases create_store hm with ⟨_, hsk⟩ | ⟨_, rfl⟩
      · obtain ⟨hsort, hbound⟩ := ih _ _ hsk
        exact ⟨hsort, fun e he => tsLe_trans (hbound e he) hok⟩
      · refine ⟨?_, ?_⟩
        · simp [createRecord]
        · intro e he
          simp only [createRecord, List.mem_singleton] at he
          rw [he]
          exact tsLe_refl now
    | addEvent now p =>
      rcases addEvent_store hm with hsk | ⟨memory, hl, _, rfl⟩
      · obtain ⟨hsort, hbound⟩ := ih _ _ hsk
        exact ⟨hsort, fun e he => tsLe_trans (hbound e he) hok.1⟩
      · obtain ⟨hsort, hbound⟩ := ih _ _ hl
        refine ⟨sortTimeline_sorted _, ?_⟩
        intro e he
        simp only [addEventRecord] at he
        rcases List.mem_append.mp (mem_sortTimeline.mp he) with hme | hme
        · exact tsLe_trans (hbound e hme) hok.1
        · rw [List.mem_singleton] at hme
          rw [hme]
          rcases hts : p.timestamp with _ | ts
          · simpa [hts] using tsLe_refl now
          · simpa [hts] using hok.2 ts hts
    | propose now p =>
      rcases propose_store hm with hsk | ⟨memory, hl, _, rfl⟩
      · obtain ⟨hsort, hbound⟩ := ih _ _ hsk
        exact ⟨hsort, fun e he => tsLe_trans (hbound e he) hok⟩
      · obtain ⟨hsort, hbound⟩ := ih _ _ hl
        exact ⟨hsort, fun e he => tsLe_trans (hbound e he) hok⟩
    | updateHyp p =>
      rcases updateHyp_store hm with hsk | ⟨memory, hh, hl, hf, _, rfl⟩
      · exact ih _ _ hsk
      · obtain ⟨hsort, hbound⟩ := ih _ _ hl
        exact ⟨by simpa [updateHypRecord] using hsort,
          by simpa [updateHypRecord] using hbound⟩
    | ruleOut now p =>
      rcases ruleOut_store hm with hsk | ⟨memory, hh, hl, hf, _, rfl⟩
      · obtain ⟨hsort, hbound⟩ := ih _ _ hsk
        exact ⟨hsort, fun e he => tsLe_trans (hbound e he) hok⟩
      · obtain ⟨hsort, hbound⟩ := ih _ _ hl
        exact ⟨hsort, fun e he => tsLe_trans (hbound e he) hok⟩
    | confirm n1 n2 p =>
      rcases confirm_store hm with hsk | ⟨memory, hh, hl, hf, _, rfl⟩
      · obtain ⟨hsort, hbound⟩ := ih _ _ hsk
        exact ⟨hsort, fun e he => tsLe_trans (tsLe_trans (hbound e he) hok.1) hok.2⟩
      · obtain ⟨hsort, hbound⟩ := ih _ _ hl
        refine ⟨?_, ?_⟩
        · simp only [confirmRecord]
          rw [List.Sorted, List.pairwise_append]
          refine ⟨hsort, by simp, ?_⟩
          intro a ha b hb
          rw [List.mem_singleton] at hb
          rw [hb]
          exact tsLe_trans (tsLe_trans (hbound a ha) hok.1) hok.2
        · intro e he
          simp only [confirmRecord] at he
          rcases List.mem_append.mp he with hme | hme
          · exact tsLe_trans (tsLe_trans (hbound e hme) hok.1) hok.2
          · rw [List.mem_singleton] at hme
            rw [hme]
            exact tsLe_refl n2
    | addFind p =>
      rcases addFind_store hm with hsk | ⟨memory, hl, _, rfl⟩
      · exact ih _ _ hsk
      · obtain ⟨hsort, hbound⟩ := ih _ _ hl
        exact ⟨by simpa [addFindRecord] using hsort,
          by simpa [addFindRecord] using hbound⟩
    | setTldr now p =>
      rcases setTldr_store hm with hsk | ⟨memory, hl, _, rfl⟩
      · obtain ⟨hsort, hbound⟩ := ih _ _ hsk
        exact ⟨hsort, fun e he => tsLe_trans (hbound e he) hok⟩
      · obtain ⟨hsort, hbound⟩ := ih _ _ hl
        exact ⟨hsort, fun e he => tsLe_trans (hbound e he) hok⟩

/-- C4: after every write operation run from createIncident under monotone
clock readings and historical (never future) caller-supplied timestamps — in
particular addTimelineEvent with out-of-order historical timestamps and the
unsorted push done by confirmRootCause — the timeline of every stored record
is sorted by timestamp ascending in the lexicographic string order. -/
theorem timeline_sorted {t : String} {s : Store} (hr : ClockedReach t s)
    {k : String} {m : IncidentMemory} (hm : s k = some m) :
    List.Sorted timelineOrder m.timeline :=
  (clocked_timeline_invariant hr k m hm).1

/-- C4 witness: the sortedness statement evaluated on the concrete clocked
trace create, out-of-order historical timeline event, propose, confirm. -/
theorem timeline_sorted_witness :
    List.Sorted timelineOrder (recOf storeW "inc_1").timeline :=
  timeline_sorted
    (ClockedReach.step _ _ (Op.confirm tD tD confirmP)
      (ClockedReach.step _ _ (Op.propose tC proposeP)
        (ClockedReach.step _ _ (Op.addEvent tB histEventP)
          (ClockedReach.step _ _ (Op.create "inc_1" tA createP)
            (ClockedReach.base tA) (show tsLe tA tA by decide))
          ⟨by decide, fun ts hts => by
            obtain rfl : tHist = ts := Option.some.inj hts
            decide⟩)
        (show tsLe tB tC by decide))
      ⟨show tsLe tC tD by decide, show tsLe tD tD by decide⟩)
    (k := "inc_1") (by decide)

end FirstResponder
